import Mathlib

/-!
Feature-toggle lookup function (`GetFlags.go`)

A shallow embedding of the Cloud Function in `src/GetFlags.go` and the
properties of its specification.

Conventions of the embedding:

* Go strings held by the program are modelled as Lean `String`s (sequences of
  Unicode scalar values). Every string the program holds (the requested market,
  the markets of the flag set) comes out of `encoding/json`, whose decoder only
  produces valid UTF-8, and string equality on valid UTF-8 is equality of the
  scalar sequences.
* Raw payloads (request body, blob content, response body) are `List Char`.
  Go's JSON scanner treats a byte that is not valid UTF-8 like `U+FFFD` inside a
  string literal and like any other illegal character outside one, so a payload
  stands for its bytes after that replacement.
* Go `int` is the 64-bit signed integer of the Cloud Functions runtime: an `Int`
  together with the range check `intInRange` wherever a value is produced.
* The handler's effects are explicit: the `ResponseWriter` state, the number of
  times the loader was invoked, and how the call ended (`Outcome`): a return, a
  panic, or the termination of the process by `log.Fatal`.
* The packages the program calls (`encoding/json`, `net/http`, `strconv`,
  `cloud.google.com/go/storage`) are not part of the repository. The first
  three are modelled after their Go sources as far as the program uses them;
  the storage service is a parameter (`Storage`).
* `fmt.Println` / `log.Println` output is not part of the state.
-/

set_option linter.dupNamespace false

namespace FeatureToggle

/-! ## Data model (GetFlags.go, lines 17-38) -/

/-- RequestBody defines the required shape for POST requests. -/
structure RequestBody where
  Market : String
  deriving DecidableEq, Repr

/-- SplitPercentage specifies the splitting levels between new and current
implementations. -/
structure SplitPercentage where
  New : Int
  Current : Int
  deriving DecidableEq, Repr

/-- FeatureFlag defines the structure of the flags necessary per market; the
pointer field `AbSplitPercentage` is `none` when it is `nil`. -/
structure FeatureFlag where
  Market : String
  NewFeatureActive : Bool
  AbSplitPercentage : Option SplitPercentage
  deriving DecidableEq, Repr

/-- Flags struct which contains an array of feature flags. -/
structure Flags where
  Flags : List FeatureFlag
  deriving DecidableEq, Repr

/-! ## FindMatch (GetFlags.go, lines 136-151) -/

/-- The `for i := range flags.Flags` loop of `FindMatch`, started at index `i`
on the remaining flags: `searchIndex` stays `-1` until the first flag whose
market equals the requested one, where the loop breaks with that index. -/
def FindMatch.loop (requestedMarket : String) : List FeatureFlag → Nat → Int
  | [], _ => -1
  | f :: rest, i =>
    if f.Market = requestedMarket then (i : Int)
    else FindMatch.loop requestedMarket rest (i + 1)

/-- FindMatch takes flag data and a requested market and will attempt to see if
we have that market's data. -/
def FindMatch (flags : Flags) (requestedMarket : String) : Int :=
  FindMatch.loop requestedMarket flags.Flags 0

/-! ## encoding/json: the scanner

`GetFlags.go` decodes the request body with `json.NewDecoder(r.Body).Decode`
and the blob with `json.Unmarshal`, and encodes the matched flag with
`json.Marshal`. The library is modelled for the four Go types of the program,
after the Go release of the runtime the function was written for (Go 1.13):
a scanner that accepts exactly the JSON grammar of `encoding/json/scanner.go`
and yields a value tree, the assignment of a tree to a Go value
(`decode.go`), and the encoder (`encode.go`). -/

/-- Errors of `encoding/json` as the program can observe them: `io.EOF` of a
stream without a value, `*json.SyntaxError` (also for truncated input), and
`*json.UnmarshalTypeError`. -/
inductive JsonError where
  | EOF
  | SyntaxError
  | UnmarshalTypeError
  deriving DecidableEq, Repr

/-- A scanned JSON value. Numbers keep their literal, strings are unquoted. -/
inductive JsonValue where
  | null
  | bool (b : Bool)
  | number (lit : List Char)
  | string (s : List Char)
  | array (elems : List JsonValue)
  | object (members : List (List Char × JsonValue))
  deriving Repr

/-- Go `isSpace` of scanner.go. -/
def isSpace (c : Char) : Bool :=
  c = ' ' || c = '\t' || c = '\r' || c = '\n'

/-- Drops leading white space (`scanSkipSpace`). -/
def skipSpace : List Char → List Char
  | [] => []
  | c :: rest => if isSpace c then skipSpace rest else c :: rest

/-- Decimal digit `'0' <= c <= '9'`. -/
def isDigit (c : Char) : Bool := 48 ≤ c.toNat && c.toNat ≤ 57

/-- Hexadecimal digit, as accepted after `\u` (`0-9`, `a-f`, `A-F`). -/
def isHex (c : Char) : Bool :=
  isDigit c || (97 ≤ c.toNat && c.toNat ≤ 102) || (65 ≤ c.toNat && c.toNat ≤ 70)

/-- The longest run of digits at the head of the input, and what follows it
(`state1`, `stateDot0`, `stateE0`). -/
def scanDigits : List Char → List Char × List Char
  | [] => ([], [])
  | c :: rest =>
    if isDigit c then ((scanDigits rest).1.cons c, (scanDigits rest).2) else ([], c :: rest)

/-- The scanner inside a string literal, after the opening quote
(`stateInString`, `stateInStringEsc`, `stateInStringEscU...`): the raw text of
the literal up to the closing quote, and what follows the quote. Control
characters, unknown escapes and an unterminated literal are errors. -/
def scanString : List Char → Option (List Char × List Char)
  | [] => none
  | c :: rest =>
    if c = '"' then some ([], rest)
    else if c = '\\' then
      match rest with
      | [] => none
      | e :: rest2 =>
        if e = 'u' then
          match rest2 with
          | h1 :: h2 :: h3 :: h4 :: rest3 =>
            if isHex h1 && isHex h2 && isHex h3 && isHex h4 then
              (scanString rest3).map fun r => (c :: e :: h1 :: h2 :: h3 :: h4 :: r.1, r.2)
            else none
          | _ => none
        else if e = 'b' || e = 'f' || e = 'n' || e = 'r' || e = 't' || e = '\\' || e = '/'
            || e = '"' then
          (scanString rest2).map fun r => (c :: e :: r.1, r.2)
        else none
    else if c.toNat < 32 then none
    else (scanString rest).map fun r => (c :: r.1, r.2)

/-- Value of a hexadecimal digit (`getu4`). -/
def hexVal (c : Char) : Nat :=
  if isDigit c then c.toNat - 48
  else if 97 ≤ c.toNat && c.toNat ≤ 102 then c.toNat - 97 + 10
  else if 65 ≤ c.toNat && c.toNat ≤ 70 then c.toNat - 65 + 10
  else 0

/-- The rune written by four hexadecimal digits. -/
def hex4 (h1 h2 h3 h4 : Char) : Nat :=
  ((hexVal h1 * 16 + hexVal h2) * 16 + hexVal h3) * 16 + hexVal h4

/-- Go `getu4` of decode.go: the rune of a leading `\uXXXX`, `none` (Go: `-1`)
when the input does not start with one. -/
def getu4 : List Char → Option Nat
  | b :: u :: h1 :: h2 :: h3 :: h4 :: _ =>
    if b = '\\' && u = 'u' && isHex h1 && isHex h2 && isHex h3 && isHex h4 then
      some (hex4 h1 h2 h3 h4)
    else none
  | _ => none

/-- Go `utf16.IsSurrogate`. -/
def utf16IsSurrogate (r : Nat) : Bool := 0xd800 ≤ r && r < 0xe000

/-- Go `utf16.DecodeRune`: the rune of a surrogate pair, `U+FFFD` when the two
halves are not a valid pair. -/
def utf16DecodeRune (r1 : Nat) (r2 : Option Nat) : Nat :=
  match r2 with
  | some r2 =>
    if 0xd800 ≤ r1 && r1 < 0xdc00 && 0xdc00 ≤ r2 && r2 < 0xe000 then
      (r1 - 0xd800) * 1024 + (r2 - 0xdc00) + 0x10000
    else 0xFFFD
  | none => 0xFFFD

/-- The character a one-letter escape stands for (`unquoteBytes`). -/
def unescape (e : Char) : Char :=
  if e = 'b' then Char.ofNat 8
  else if e = 'f' then Char.ofNat 12
  else if e = 'n' then '\n'
  else if e = 'r' then '\r'
  else if e = 't' then '\t'
  else e

/-- Go `unquoteBytes` of decode.go on the raw text of a scanned literal; the
first argument is the number of characters still to skip (the six characters
of the second half of a surrogate pair that has just been consumed). -/
def unquoteFrom : Nat → List Char → List Char
  | _, [] => []
  | skip + 1, _ :: rest => unquoteFrom skip rest
  | 0, c :: rest =>
    if c = '\\' then
      match rest with
      | [] => []
      | e :: rest2 =>
        if e = 'u' then
          match rest2 with
          | h1 :: h2 :: h3 :: h4 :: rest3 =>
            if utf16IsSurrogate (hex4 h1 h2 h3 h4) then
              if utf16DecodeRune (hex4 h1 h2 h3 h4) (getu4 rest3) ≠ 0xFFFD then
                Char.ofNat (utf16DecodeRune (hex4 h1 h2 h3 h4) (getu4 rest3))
                  :: unquoteFrom 6 rest3
              else Char.ofNat 0xFFFD :: unquoteFrom 0 rest3
            else Char.ofNat (hex4 h1 h2 h3 h4) :: unquoteFrom 0 rest3
          | _ => []
        else unescape e :: unquoteFrom 0 rest2
    else c :: unquoteFrom 0 rest

/-- The string a scanned literal denotes. -/
def unquote (raw : List Char) : List Char := unquoteFrom 0 raw

/-- The exponent of a number after `e` or `E` (`stateE`, `stateESign`,
`stateE0`). -/
def scanExponent (rest : List Char) : Option (List Char × List Char) :=
  match rest with
  | [] => none
  | s :: r =>
    if s = '+' || s = '-' then
      match r with
      | [] => none
      | d :: _ => if isDigit d then some (s :: (scanDigits r).1, (scanDigits r).2) else none
    else if isDigit s then some ((scanDigits rest).1, (scanDigits rest).2)
    else none

/-- What may follow the integer part of a number (`state0`): a fraction, an
exponent, or the end of the number. -/
def scanFraction (rest : List Char) : Option (List Char × List Char) :=
  match rest with
  | [] => some ([], [])
  | c :: r =>
    if c = '.' then
      match r with
      | [] => none
      | d :: _ =>
        if isDigit d then
          match (scanDigits r).2 with
          | [] => some (c :: (scanDigits r).1, [])
          | e :: r2 =>
            if e = 'e' || e = 'E' then
              (scanExponent r2).map fun x => (c :: (scanDigits r).1 ++ e :: x.1, x.2)
            else some (c :: (scanDigits r).1, e :: r2)
        else none
    else if c = 'e' || c = 'E' then (scanExponent r).map fun x => (c :: x.1, x.2)
    else some ([], rest)

/-- The integer part of a number and what follows: a single `0`, or a digit
`1-9` with further digits (`state0`, `state1`). -/
def scanInteger (input : List Char) : Option (List Char × List Char) :=
  match input with
  | [] => none
  | d :: rest =>
    if d = '0' then (scanFraction rest).map fun x => (d :: x.1, x.2)
    else if isDigit d then
      (scanFraction (scanDigits rest).2).map fun x => (d :: (scanDigits rest).1 ++ x.1, x.2)
    else none

/-- A number literal at the head of the input and what follows it
(`stateNeg`). -/
def scanNumber (input : List Char) : Option (List Char × List Char) :=
  match input with
  | [] => none
  | c :: rest =>
    if c = '-' then (scanInteger rest).map fun x => (c :: x.1, x.2)
    else scanInteger input

/-- The rest of a literal name (`true`, `false`, `null`) after its first
letter. -/
def scanLiteral (word : List Char) (input : List Char) : Option (List Char) :=
  if word.isPrefixOf input then some (input.drop word.length) else none

mutual
/-- One JSON value at the head of the input (after white space) and the input
that follows it; `none` is a scanner error. The first argument bounds the
number of nested calls; the decoders pass the length of the input plus one,
and no larger bound changes the result (`parseValue_fuel_adequate`). -/
def parseValue : Nat → List Char → Option (JsonValue × List Char)
  | 0, _ => none
  | fuel + 1, input =>
    match skipSpace input with
    | [] => none
    | c :: rest =>
      if c = '{' then
        match skipSpace rest with
        | [] => none
        | d :: rest2 =>
          if d = '}' then some (JsonValue.object [], rest2)
          else (parseMembers fuel (d :: rest2)).map fun x => (JsonValue.object x.1, x.2)
      else if c = '[' then
        match skipSpace rest with
        | [] => none
        | d :: rest2 =>
          if d = ']' then some (JsonValue.array [], rest2)
          else (parseElements fuel (d :: rest2)).map fun x => (JsonValue.array x.1, x.2)
      else if c = '"' then
        (scanString rest).map fun x => (JsonValue.string (unquote x.1), x.2)
      else if c = '-' || isDigit c then
        (scanNumber (c :: rest)).map fun x => (JsonValue.number x.1, x.2)
      else if c = 't' then
        (scanLiteral ['r', 'u', 'e'] rest).map fun r => (JsonValue.bool true, r)
      else if c = 'f' then
        (scanLiteral ['a', 'l', 's', 'e'] rest).map fun r => (JsonValue.bool false, r)
      else if c = 'n' then
        (scanLiteral ['u', 'l', 'l'] rest).map fun r => (JsonValue.null, r)
      else none
/-- The members of an object after `{` or `,`: a string key, a colon, a value,
then `,` and further members or the closing `}`. -/
def parseMembers : Nat → List Char → Option (List (List Char × JsonValue) × List Char)
  | 0, _ => none
  | fuel + 1, input =>
    match skipSpace input with
    | [] => none
    | q :: rest =>
      if q = '"' then
        match scanString rest with
        | none => none
        | some (rawKey, afterKey) =>
          match skipSpace afterKey with
          | [] => none
          | colon :: afterColon =>
            if colon = ':' then
              match parseValue fuel afterColon with
              | none => none
              | some (v, afterValue) =>
                match skipSpace afterValue with
                | [] => none
                | sep :: afterSep =>
                  if sep = ',' then
                    (parseMembers fuel afterSep).map fun x => ((unquote rawKey, v) :: x.1, x.2)
                  else if sep = '}' then some ([(unquote rawKey, v)], afterSep)
                  else none
            else none
      else none
/-- The elements of an array after `[` or `,`: a value, then `,` and further
elements or the closing `]`. -/
def parseElements : Nat → List Char → Option (List JsonValue × List Char)
  | 0, _ => none
  | fuel + 1, input =>
    match parseValue fuel input with
    | none => none
    | some (v, afterValue) =>
      match skipSpace afterValue with
      | [] => none
      | sep :: afterSep =>
        if sep = ',' then (parseElements fuel afterSep).map fun x => (v :: x.1, x.2)
        else if sep = ']' then some ([v], afterSep)
        else none
end

/-! ## encoding/json: decoding into the Go types of the program -/

/-- The value of a run of decimal digits, `none` when another character
occurs. -/
def digitsValue : List Char → Nat → Option Nat
  | [], acc => some acc
  | c :: rest, acc => if isDigit c then digitsValue rest (acc * 10 + (c.toNat - 48)) else none

/-- The values of Go's `int` on the 64-bit runtime. -/
def intInRange (n : Int) : Prop := -(2 : Int) ^ 63 ≤ n ∧ n < (2 : Int) ^ 63

instance (n : Int) : Decidable (intInRange n) := by unfold intInRange; infer_instance

/-- Go `strconv.ParseInt(s, 10, 64)`: an optional sign and decimal digits, in the
range of `int64`; `none` is an error. -/
def strconvParseInt (s : List Char) : Option Int :=
  match s with
  | [] => none
  | c :: rest =>
    if c = '-' then
      match rest with
      | [] => none
      | _ :: _ =>
        match digitsValue rest 0 with
        | some n => if intInRange (-(n : Int)) then some (-(n : Int)) else none
        | none => none
    else if c = '+' then
      match rest with
      | [] => none
      | _ :: _ =>
        match digitsValue rest 0 with
        | some n => if intInRange (n : Int) then some (n : Int) else none
        | none => none
    else
      match digitsValue s 0 with
      | some n => if intInRange (n : Int) then some (n : Int) else none
      | none => none

/-- One step of `equalFoldRight` (fold.go): the character `sb` of an ASCII
field name against the character `tc` of a key. ASCII letters match in either
case; `s` also matches the long s `U+017F` and `k` the Kelvin sign `U+212A`. -/
def foldsTo (sb tc : Char) : Bool :=
  if tc.toNat < 128 then
    sb = tc ||
      (65 ≤ (sb.toNat &&& 0xDF) && (sb.toNat &&& 0xDF) ≤ 90
        && (sb.toNat &&& 0xDF) = (tc.toNat &&& 0xDF))
  else if sb = 's' || sb = 'S' then tc.toNat = 0x17F
  else if sb = 'k' || sb = 'K' then tc.toNat = 0x212A
  else false

/-- Case-insensitive match of a field name (ASCII letters) with a key. -/
def equalFold : List Char → List Char → Bool
  | [], [] => true
  | sb :: s, tc :: t => foldsTo sb tc && equalFold s t
  | _, _ => false

/-- The field an object key is stored in (`object` of decode.go): the field
whose name equals the key, otherwise the first field whose name matches it
case-insensitively; `none` when the key is ignored. -/
def findField (names : List String) (key : List Char) : Option Nat :=
  match names.findIdx? (fun name => name.data = key) with
  | some i => some i
  | none => names.findIdx? (fun name => equalFold name.data key)

/-- Go `saveError` of decode.go: only the first error is kept. -/
def saveError (saved : Option JsonError) (e : JsonError) : Option JsonError :=
  match saved with
  | none => some e
  | some first => some first

/-- Go `literalStore` into a Go `string`: a JSON string is stored, `null` leaves
the value as it is, anything else is an `UnmarshalTypeError`. -/
def decodeString (v : JsonValue) (cur : String) (saved : Option JsonError) :
    String × Option JsonError :=
  match v with
  | JsonValue.string s => (String.mk s, saved)
  | JsonValue.null => (cur, saved)
  | _ => (cur, saveError saved JsonError.UnmarshalTypeError)

/-- Go `literalStore` into a Go `bool`. -/
def decodeBool (v : JsonValue) (cur : Bool) (saved : Option JsonError) :
    Bool × Option JsonError :=
  match v with
  | JsonValue.bool b => (b, saved)
  | JsonValue.null => (cur, saved)
  | _ => (cur, saveError saved JsonError.UnmarshalTypeError)

/-- Go `literalStore` into a Go `int`: the number literal must pass
`strconv.ParseInt`. -/
def decodeInt (v : JsonValue) (cur : Int) (saved : Option JsonError) :
    Int × Option JsonError :=
  match v with
  | JsonValue.number lit =>
    match strconvParseInt lit with
    | some n => (n, saved)
    | none => (cur, saveError saved JsonError.UnmarshalTypeError)
  | JsonValue.null => (cur, saved)
  | _ => (cur, saveError saved JsonError.UnmarshalTypeError)

/-- One member of an object stored into a `SplitPercentage` (tags `new`,
`current`). -/
def decodeSplitPercentageField (acc : SplitPercentage × Option JsonError)
    (member : List Char × JsonValue) : SplitPercentage × Option JsonError :=
  match findField ["new", "current"] member.1 with
  | some 0 => ({ acc.1 with New := (decodeInt member.2 acc.1.New acc.2).1 },
      (decodeInt member.2 acc.1.New acc.2).2)
  | some 1 => ({ acc.1 with Current := (decodeInt member.2 acc.1.Current acc.2).1 },
      (decodeInt member.2 acc.1.Current acc.2).2)
  | _ => acc

/-- A JSON value stored into a `SplitPercentage`. -/
def decodeSplitPercentage (v : JsonValue) (cur : SplitPercentage) (saved : Option JsonError) :
    SplitPercentage × Option JsonError :=
  match v with
  | JsonValue.object members => members.foldl decodeSplitPercentageField (cur, saved)
  | JsonValue.null => (cur, saved)
  | _ => (cur, saveError saved JsonError.UnmarshalTypeError)

/-- A JSON value stored into a `*SplitPercentage`: `null` sets the pointer to
`nil`; any other value allocates the struct when the pointer is `nil`
(`indirect`) and is stored into it. -/
def decodeSplitPercentagePtr (v : JsonValue) (cur : Option SplitPercentage)
    (saved : Option JsonError) : Option SplitPercentage × Option JsonError :=
  match v with
  | JsonValue.null => (none, saved)
  | _ => (some (decodeSplitPercentage v (cur.getD ⟨0, 0⟩) saved).1,
      (decodeSplitPercentage v (cur.getD ⟨0, 0⟩) saved).2)

/-- One member of an object stored into a `FeatureFlag` (tags `market`,
`newFeatureActive`, `abSplitPercentage`). -/
def decodeFeatureFlagField (acc : FeatureFlag × Option JsonError)
    (member : List Char × JsonValue) : FeatureFlag × Option JsonError :=
  match findField ["market", "newFeatureActive", "abSplitPercentage"] member.1 with
  | some 0 => ({ acc.1 with Market := (decodeString member.2 acc.1.Market acc.2).1 },
      (decodeString member.2 acc.1.Market acc.2).2)
  | some 1 =>
    ({ acc.1 with NewFeatureActive := (decodeBool member.2 acc.1.NewFeatureActive acc.2).1 },
      (decodeBool member.2 acc.1.NewFeatureActive acc.2).2)
  | some 2 =>
    ({ acc.1 with
        AbSplitPercentage := (decodeSplitPercentagePtr member.2 acc.1.AbSplitPercentage acc.2).1 },
      (decodeSplitPercentagePtr member.2 acc.1.AbSplitPercentage acc.2).2)
  | _ => acc

/-- A JSON value stored into a `FeatureFlag`. -/
def decodeFeatureFlag (v : JsonValue) (cur : FeatureFlag) (saved : Option JsonError) :
    FeatureFlag × Option JsonError :=
  match v with
  | JsonValue.object members => members.foldl decodeFeatureFlagField (cur, saved)
  | JsonValue.null => (cur, saved)
  | _ => (cur, saveError saved JsonError.UnmarshalTypeError)

/-- The elements of a JSON array stored into a `[]FeatureFlag` (`array` of
decode.go): element `i` is stored into the existing element `i`, or into a
zero `FeatureFlag` beyond the current length; the slice ends up as long as the
array. The loader decodes into a `nil` slice, so existing elements only occur
when the key `featureFlags` is repeated in the blob. -/
def decodeFeatureFlagElems : List JsonValue → List FeatureFlag → Option JsonError →
    List FeatureFlag × Option JsonError
  | [], _, saved => ([], saved)
  | v :: vs, cur, saved =>
    ((decodeFeatureFlag v (cur.headD ⟨"", false, none⟩) saved).1
        :: (decodeFeatureFlagElems vs cur.tail
              (decodeFeatureFlag v (cur.headD ⟨"", false, none⟩) saved).2).1,
      (decodeFeatureFlagElems vs cur.tail
        (decodeFeatureFlag v (cur.headD ⟨"", false, none⟩) saved).2).2)

/-- A JSON value stored into a `[]FeatureFlag`: `null` sets the slice to
`nil`. -/
def decodeFeatureFlagSlice (v : JsonValue) (cur : List FeatureFlag) (saved : Option JsonError) :
    List FeatureFlag × Option JsonError :=
  match v with
  | JsonValue.array elems => decodeFeatureFlagElems elems cur saved
  | JsonValue.null => ([], saved)
  | _ => (cur, saveError saved JsonError.UnmarshalTypeError)

/-- One member of an object stored into a `Flags` (tag `featureFlags`). -/
def decodeFlagsField (acc : Flags × Option JsonError) (member : List Char × JsonValue) :
    Flags × Option JsonError :=
  match findField ["featureFlags"] member.1 with
  | some 0 => (⟨(decodeFeatureFlagSlice member.2 acc.1.Flags acc.2).1⟩,
      (decodeFeatureFlagSlice member.2 acc.1.Flags acc.2).2)
  | _ => acc

/-- A JSON value stored into a `Flags`. -/
def decodeFlags (v : JsonValue) (cur : Flags) (saved : Option JsonError) :
    Flags × Option JsonError :=
  match v with
  | JsonValue.object members => members.foldl decodeFlagsField (cur, saved)
  | JsonValue.null => (cur, saved)
  | _ => (cur, saveError saved JsonError.UnmarshalTypeError)

/-- One member of an object stored into a `RequestBody` (field `Market`, no
tag). -/
def decodeRequestBodyField (acc : RequestBody × Option JsonError)
    (member : List Char × JsonValue) : RequestBody × Option JsonError :=
  match findField ["Market"] member.1 with
  | some 0 => (⟨(decodeString member.2 acc.1.Market acc.2).1⟩,
      (decodeString member.2 acc.1.Market acc.2).2)
  | _ => acc

/-- A JSON value stored into a `RequestBody`. -/
def decodeRequestBody (v : JsonValue) (cur : RequestBody) (saved : Option JsonError) :
    RequestBody × Option JsonError :=
  match v with
  | JsonValue.object members => members.foldl decodeRequestBodyField (cur, saved)
  | JsonValue.null => (cur, saved)
  | _ => (cur, saveError saved JsonError.UnmarshalTypeError)

/-- Go `json.Unmarshal(data, &flags)`: the data must be one JSON value with
nothing but white space around it (`checkValid`), otherwise the target is left
untouched; the result is the target after the call and the returned error. -/
def jsonUnmarshalFlags (data : List Char) (cur : Flags) : Flags × Option JsonError :=
  match parseValue (data.length + 1) data with
  | none => (cur, some JsonError.SyntaxError)
  | some (v, rest) =>
    match skipSpace rest with
    | [] => decodeFlags v cur none
    | _ :: _ => (cur, some JsonError.SyntaxError)

/-- Go `json.Unmarshal(data, &flag)` for a `FeatureFlag`. -/
def jsonUnmarshalFeatureFlag (data : List Char) (cur : FeatureFlag) :
    FeatureFlag × Option JsonError :=
  match parseValue (data.length + 1) data with
  | none => (cur, some JsonError.SyntaxError)
  | some (v, rest) =>
    match skipSpace rest with
    | [] => decodeFeatureFlag v cur none
    | _ :: _ => (cur, some JsonError.SyntaxError)

/-- Go `json.NewDecoder(r.Body).Decode(&requestBody)`: the first JSON value of
the stream is decoded and what follows it is left unread; a stream without a
value is `io.EOF`. -/
def jsonDecodeRequestBody (body : List Char) (cur : RequestBody) :
    RequestBody × Option JsonError :=
  match skipSpace body with
  | [] => (cur, some JsonError.EOF)
  | _ :: _ =>
    match parseValue (body.length + 1) body with
    | none => (cur, some JsonError.SyntaxError)
    | some (v, _) => decodeRequestBody v cur none

/-! ## encoding/json: the encoder (`json.Marshal`, HTML escaping on) -/

/-- The digit table `hex` of encode.go. -/
def hexDigit (n : Nat) : Char := "0123456789abcdef".data.getD n '0'

/-- The table `htmlSafeSet`: ASCII characters written as they are. -/
def htmlSafe (c : Char) : Bool :=
  32 ≤ c.toNat && c.toNat < 128 && !(c = '"' || c = '&' || c = '<' || c = '>' || c = '\\')

/-- What `encodeState.string` writes for one character of a valid UTF-8
string. -/
def encodeChar (c : Char) : List Char :=
  if c.toNat < 128 then
    if htmlSafe c then [c]
    else if c = '\\' || c = '"' then ['\\', c]
    else if c = '\n' then ['\\', 'n']
    else if c = '\r' then ['\\', 'r']
    else if c = '\t' then ['\\', 't']
    else ['\\', 'u', '0', '0', hexDigit (c.toNat / 16), hexDigit (c.toNat % 16)]
  else if c.toNat = 0x2028 || c.toNat = 0x2029 then
    ['\\', 'u', '2', '0', '2', hexDigit (c.toNat % 16)]
  else [c]

/-- Go `encodeState.string`: the quoted JSON string. -/
def encodeString (s : String) : List Char :=
  '"' :: (s.data.flatMap encodeChar ++ ['"'])

/-- The decimal digits of a natural number, most significant first; the first
argument bounds the number of digits. -/
def formatBits : Nat → Nat → List Char
  | 0, _ => []
  | fuel + 1, n =>
    if n < 10 then [Char.ofNat (48 + n)]
    else formatBits fuel (n / 10) ++ [Char.ofNat (48 + n % 10)]

/-- Go `strconv.AppendInt(b, n, 10)`. -/
def strconvFormatInt (n : Int) : List Char :=
  if n < 0 then '-' :: formatBits (n.natAbs + 1) n.natAbs
  else formatBits (n.natAbs + 1) n.natAbs

/-- The encoding of a `SplitPercentage`: its fields in declaration order under
their tags. -/
def marshalSplitPercentage (p : SplitPercentage) : List Char :=
  "\x7b\"new\":".data ++ strconvFormatInt p.New ++ ",\"current\":".data
    ++ strconvFormatInt p.Current ++ "\x7d".data

/-- The encoding of a `FeatureFlag`: `abSplitPercentage` is tagged
`omitempty` and is left out when the pointer is `nil`. -/
def marshalFeatureFlag (f : FeatureFlag) : List Char :=
  "\x7b\"market\":".data ++ encodeString f.Market ++ ",\"newFeatureActive\":".data
    ++ (if f.NewFeatureActive then "true".data else "false".data)
    ++ (match f.AbSplitPercentage with
        | none => []
        | some p => ",\"abSplitPercentage\":".data ++ marshalSplitPercentage p)
    ++ "\x7d".data

/-- Go `json.Marshal(flag)`: the encoding and the returned error; no value of
type `FeatureFlag` makes the encoder fail. -/
def jsonMarshal (f : FeatureFlag) : List Char × Option JsonError :=
  (marshalFeatureFlag f, none)

/-! ## The wire format of a flag (specification, section 6) -/

/-- The JSON object the specification gives for a split percentage:
`{"new": N, "current": M}`. -/
def splitTree (p : SplitPercentage) : JsonValue :=
  JsonValue.object [("new".data, JsonValue.number (strconvFormatInt p.New)),
    ("current".data, JsonValue.number (strconvFormatInt p.Current))]

/-- The JSON object the specification gives for a flag: the members `market`
and `newFeatureActive`, and the member `abSplitPercentage` only when the flag
has a split percentage. -/
def flagTree (f : FeatureFlag) : JsonValue :=
  JsonValue.object
    ([("market".data, JsonValue.string f.Market.data),
      ("newFeatureActive".data, JsonValue.bool f.NewFeatureActive)]
      ++ (match f.AbSplitPercentage with
          | none => []
          | some p => [("abSplitPercentage".data, splitTree p)]))

/-! ## net/http: the response writer -/

/-- The header map `http.Header`, one value per key (`Set` replaces). -/
structure Header where
  entries : List (String × String)
  deriving DecidableEq, Repr

/-- Go `Header.Set(key, value)`. The keys used by the program are in canonical
form already. -/
def Header.Set (h : Header) (key value : String) : Header :=
  ⟨(key, value) :: h.entries.filter (fun kv => kv.1 ≠ key)⟩

/-- The value stored under a key, `none` when the key is absent. -/
def Header.Get (h : Header) (key : String) : Option String :=
  (h.entries.find? (fun kv => kv.1 = key)).map (fun kv => kv.2)

/-- The state of an `http.ResponseWriter`: the header map the handler edits,
the status code once it has been written (`none` before), the headers as they
stood when the status was written (the ones sent with the response), and the
body written so far. -/
structure ResponseWriter where
  header : Header
  status : Option Nat
  sentHeader : Header
  body : List Char
  deriving DecidableEq, Repr

/-- The writer the server hands to the handler: nothing set, nothing written. -/
def newResponseWriter : ResponseWriter := ⟨⟨[]⟩, none, ⟨[]⟩, []⟩

/-- Go `w.Header().Set(key, value)`. After the status has been written this still
edits the map, but no longer the headers that were sent. -/
def ResponseWriter.HeaderSet (w : ResponseWriter) (key value : String) : ResponseWriter :=
  { w with header := w.header.Set key value }

/-- Go `w.WriteHeader(code)`: the first call fixes the status code and the headers
sent; a further call is superfluous and changes nothing. -/
def ResponseWriter.WriteHeader (w : ResponseWriter) (code : Nat) : ResponseWriter :=
  match w.status with
  | some _ => w
  | none => { w with status := some code, sentHeader := w.header }

/-- Go `w.Write(data)`: writes status 200 first when no status has been written,
then appends the data to the body. -/
def ResponseWriter.Write (w : ResponseWriter) (data : List Char) : ResponseWriter :=
  { (match w.status with
      | some _ => w
      | none => w.WriteHeader 200) with
    body := (match w.status with
      | some _ => w
      | none => w.WriteHeader 200).body ++ data }

/-- Go `http.StatusOK`. -/
def StatusOK : Nat := 200

/-- Go `http.StatusBadRequest`. -/
def StatusBadRequest : Nat := 400

/-- Go `http.Error(w, error, code)`: sets `Content-Type` to
`text/plain; charset=utf-8` and `X-Content-Type-Options` to `nosniff`, writes
the status code and prints the message with `fmt.Fprintln`, that is followed by
a line feed. -/
def httpError (w : ResponseWriter) (error : String) (code : Nat) : ResponseWriter :=
  ((((w.HeaderSet "Content-Type" "text/plain; charset=utf-8").HeaderSet
    "X-Content-Type-Options" "nosniff").WriteHeader code).Write (error.data ++ ['\n']))

/-! ## EndWithBadRequest, EndWithOK (GetFlags.go, lines 153-166) -/

/-- EndWithBadRequest handles finishing function calls that are not valid. The
argument `err` is not used. -/
def EndWithBadRequest (w : ResponseWriter) (_err : List Char) : ResponseWriter :=
  httpError (w.HeaderSet "Content-Type" "text/plain") "Bad request" StatusBadRequest

/-- EndWithOK handles finishing function calls that are valid. -/
def EndWithOK (w : ResponseWriter) (data : List Char) : ResponseWriter :=
  (((w.HeaderSet "Content-Type" "application/json").WriteHeader StatusOK).Write data)

/-! ## GetBucketFlagData (GetFlags.go, lines 89-134) -/

/-- The environment variables the program reads with `os.Getenv`. -/
structure Env where
  ACCESS_CONTROL_ALLOW_ORIGIN : String
  BUCKET_NAME : String
  DATA_FILENAME : String
  deriving DecidableEq, Repr

/-- What `ioutil.ReadAll(rdr)` returns for an opened object: the bytes read
and the read error, if any. -/
structure Reader where
  data : List Char
  err : Option String
  deriving DecidableEq, Repr

/-- The Cloud Storage service as the loader sees it: the error of
`storage.NewClient` (`none` on success); for a bucket, the object names
`it.Next()` yields and the error that ends the iteration (`none` for
`iterator.Done`); for a bucket and an object name, the reader `NewReader`
opens or its error. -/
structure Storage where
  NewClient : Option String
  Objects : String → List String × Option String
  NewReader : String → String → Except String Reader

/-- How a call of the loader ends: it returns the flags, or `log.Fatal`
prints the message and terminates the process. -/
inductive LoaderResult where
  | ok (flags : Flags)
  | fatal (msg : String)
  deriving DecidableEq, Repr

/-- GetBucketFlagData reads flags from a JSON file in a Google Cloud Storage
bucket. The errors of `ioutil.ReadAll` and of `json.Unmarshal` are discarded
by the source. -/
def GetBucketFlagData (env : Env) (gcs : Storage) : LoaderResult :=
  match gcs.NewClient with
  | some err => LoaderResult.fatal ("Failed to create client: " ++ err)
  | none =>
    match (gcs.Objects env.BUCKET_NAME).2 with
    | some err => LoaderResult.fatal err
    | none =>
      match gcs.NewReader env.BUCKET_NAME env.DATA_FILENAME with
      | Except.error err => LoaderResult.fatal err
      | Except.ok rdr => LoaderResult.ok (jsonUnmarshalFlags rdr.data ⟨[]⟩).1

/-! ## GetFlags (GetFlags.go, lines 40-87) -/

/-- The value a panic of the handler carries: the error passed to `panic`, or
the runtime error of an index out of range. -/
inductive PanicValue where
  | error (err : JsonError)
  | indexOutOfRange
  deriving DecidableEq, Repr

/-- How a call of the handler ends: it returns, it panics, or the process is
terminated with the given exit status (`log.Fatal` exits with status 1), after
which the process serves nothing further. -/
inductive Outcome where
  | returned
  | panicked (v : PanicValue)
  | exited (code : Nat)
  deriving DecidableEq, Repr

/-- What a call of the handler leaves behind: the response writer, how the call
ended, and how many times the loader `GetBucketFlagData` was invoked. -/
structure HandlerResult where
  w : ResponseWriter
  outcome : Outcome
  loaderCalls : Nat
  deriving DecidableEq, Repr

/-- The Go index expression `s[i]` on a slice: `none` is the runtime panic of
an index out of range. -/
def sliceIndex (s : List FeatureFlag) (i : Int) : Option FeatureFlag :=
  if i < 0 then none else s[i.toNat]?

/-- GetFlags fetches feature flags. `w` is the response writer and `body` the
content of `r.Body`. -/
def GetFlags (env : Env) (gcs : Storage) (w : ResponseWriter) (body : List Char) :
    HandlerResult :=
  -- Set initial, shared headers
  let w1 := ((w.HeaderSet "Access-Control-Allow-Origin" env.ACCESS_CONTROL_ALLOW_ORIGIN).HeaderSet
    "Access-Control-Allow-Methods" "POST, GET, OPTIONS").HeaderSet
    "Access-Control-Allow-Headers" "Content-Type"
  -- Check for body
  match jsonDecodeRequestBody body ⟨""⟩ with
  | (_, some err) => ⟨w1, Outcome.panicked (PanicValue.error err), 0⟩
  | (requestBody, none) =>
    -- Check that we don't receive empty/null market (there is no return here)
    let w2 := if requestBody.Market = "" then
        EndWithBadRequest w1 "Did not find any match".data else w1
    match GetBucketFlagData env gcs with
    | LoaderResult.fatal _ => ⟨w2, Outcome.exited 1, 1⟩
    | LoaderResult.ok flags =>
      let requestedMarket := requestBody.Market
      let searchIndex := FindMatch flags requestedMarket
      -- Return bad request if we didn't find a match
      if searchIndex = -1 then
        ⟨EndWithBadRequest w2 "Did not find any match".data, Outcome.returned, 1⟩
      else
        -- Return data if we found a match
        match sliceIndex flags.Flags searchIndex with
        | none => ⟨w2, Outcome.panicked PanicValue.indexOutOfRange, 1⟩
        | some flag =>
          match jsonMarshal flag with
          | (_, some err) => ⟨w2, Outcome.panicked (PanicValue.error err), 1⟩
          | (data, none) => ⟨EndWithOK w2 data, Outcome.returned, 1⟩

/-! ## The scenarios of the specification -/

/-- An environment for the scenarios: origin `*`, bucket `flags-bucket`, object
`flags.json`. -/
def scenarioEnv : Env := ⟨"*", "flags-bucket", "flags.json"⟩

/-- A storage service that is reachable and holds the given blob under every
object name. -/
def storageWith (blob : String) : Storage :=
  ⟨none, fun _ => (["flags.json"], none), fun _ _ => Except.ok ⟨blob.data, none⟩⟩

/-- A storage service whose client cannot be constructed. -/
def storageDown : Storage :=
  ⟨some "dial tcp: connection refused", fun _ => ([], none),
    fun _ _ => Except.error "storage: object doesn't exist"⟩

/-- The blob of scenarios A and B: `{"featureFlags":[{"market":"US","newFeatureActive":true}]}`. -/
def blobUS : String :=
  "\x7b\"featureFlags\":[\x7b\"market\":\"US\",\"newFeatureActive\":true\x7d]\x7d"

/-- The request body `{"Market":"US"}`. -/
def requestUS : List Char := "\x7b\"Market\":\"US\"\x7d".data

/-- The request body `{"Market":"FR"}`. -/
def requestFR : List Char := "\x7b\"Market\":\"FR\"\x7d".data

/-- The request body `{"Market":""}`. -/
def requestEmptyMarket : List Char := "\x7b\"Market\":\"\"\x7d".data

/-! ## Properties of FindMatch -/

theorem FindMatch.loop_neg_one_iff (m : String) (fs : List FeatureFlag) (i : Nat) :
    FindMatch.loop m fs i = -1 ↔ ∀ f ∈ fs, f.Market ≠ m := by
  induction fs generalizing i with
  | nil => simp [FindMatch.loop]
  | cons f rest ih =>
    by_cases h : f.Market = m
    · simp only [FindMatch.loop, h, if_true, List.mem_cons, ne_eq, forall_eq_or_imp,
        not_true_eq_false, false_and, iff_false]
      omega
    · simp [FindMatch.loop, h, ih]

theorem FindMatch.loop_found (m : String) (fs : List FeatureFlag) (i : Nat)
    (h : ∃ f ∈ fs, f.Market = m) :
    ∃ k : Nat, FindMatch.loop m fs i = ((i + k : Nat) : Int) ∧ k < fs.length ∧
      (∃ g, fs[k]? = some g ∧ g.Market = m) ∧
      ∀ j, j < k → ∀ g, fs[j]? = some g → g.Market ≠ m := by
  induction fs generalizing i with
  | nil => simp at h
  | cons f rest ih =>
    by_cases hf : f.Market = m
    · refine ⟨0, by simp [FindMatch.loop, hf], by simp, ⟨f, by simp, hf⟩, ?_⟩
      intro j hj
      omega
    · have h2 : ∃ f ∈ rest, f.Market = m := by
        obtain ⟨g, hg, hgm⟩ := h
        rcases List.mem_cons.mp hg with rfl | hg
        · exact absurd hgm hf
        · exact ⟨g, hg, hgm⟩
      obtain ⟨k, hk, hlen, hget, hmin⟩ := ih (i + 1) h2
      refine ⟨k + 1, ?_, by simpa using hlen, by simpa using hget, ?_⟩
      · simp only [FindMatch.loop, hf, if_false, hk]
        congr 1
        omega
      · intro j hj g hg
        cases j with
        | zero =>
          simp at hg
          subst hg
          exact hf
        | succ j =>
          simp at hg
          exact hmin j (by omega) g hg

/-- C1: when some flag of the set has the requested market, FindMatch returns
an index `i` within the bounds of the set, the flag at `i` has the requested
market, and no flag at a smaller index has it (first occurrence wins). -/
theorem FindMatch_first_match (flags : Flags) (requestedMarket : String)
    (h : ∃ f ∈ flags.Flags, f.Market = requestedMarket) :
    ∃ i : Nat, FindMatch flags requestedMarket = (i : Int) ∧
      0 ≤ FindMatch flags requestedMarket ∧
      i < flags.Flags.length ∧
      (∃ g, flags.Flags[i]? = some g ∧ g.Market = requestedMarket) ∧
      ∀ j, j < i → ∀ g, flags.Flags[j]? = some g → g.Market ≠ requestedMarket := by
  obtain ⟨k, hk, hlen, hget, hmin⟩ := FindMatch.loop_found requestedMarket flags.Flags 0 h
  have hk0 : FindMatch flags requestedMarket = (k : Int) := by
    simp [FindMatch, hk]
  exact ⟨k, hk0, by rw [hk0]; exact Int.natCast_nonneg k, hlen, hget, hmin⟩

/-- Witness of `FindMatch_first_match`: the market SE occurs twice. -/
theorem FindMatch_first_match_witness :
    (∃ f ∈ (Flags.mk [⟨"US", true, none⟩, ⟨"SE", false, none⟩, ⟨"SE", true, none⟩]).Flags,
        f.Market = "SE") ∧
    ∃ i : Nat, FindMatch ⟨[⟨"US", true, none⟩, ⟨"SE", false, none⟩, ⟨"SE", true, none⟩]⟩ "SE"
        = (i : Int) ∧
      0 ≤ FindMatch ⟨[⟨"US", true, none⟩, ⟨"SE", false, none⟩, ⟨"SE", true, none⟩]⟩ "SE" ∧
      i < (Flags.mk [⟨"US", true, none⟩, ⟨"SE", false, none⟩, ⟨"SE", true, none⟩]).Flags.length ∧
      (∃ g, (Flags.mk [⟨"US", true, none⟩, ⟨"SE", false, none⟩, ⟨"SE", true, none⟩]).Flags[i]?
          = some g ∧ g.Market = "SE") ∧
      ∀ j, j < i → ∀ g,
        (Flags.mk [⟨"US", true, none⟩, ⟨"SE", false, none⟩, ⟨"SE", true, none⟩]).Flags[j]?
          = some g → g.Market ≠ "SE" :=
  ⟨⟨⟨"SE", false, none⟩, by decide, rfl⟩,
    FindMatch_first_match _ "SE" ⟨⟨"SE", false, none⟩, by decide, rfl⟩⟩

/-- C2: FindMatch returns the NotFound sentinel `-1` exactly when no flag of the
set has the requested market; on the empty flag set it returns `-1` for every
requested market. -/
theorem FindMatch_not_found_iff (flags : Flags) (requestedMarket : String) :
    (FindMatch flags requestedMarket = -1 ↔
      ∀ f ∈ flags.Flags, f.Market ≠ requestedMarket) ∧
    FindMatch ⟨[]⟩ requestedMarket = -1 := by
  refine ⟨FindMatch.loop_neg_one_iff requestedMarket flags.Flags 0, ?_⟩
  simp [FindMatch, FindMatch.loop]

/-! ## Properties of the response writer -/

theorem find?_filter_key_ne (es : List (String × String)) (key k : String) (hk : ¬ k = key) :
    (es.filter (fun kv => kv.1 ≠ key)).find? (fun kv => kv.1 = k)
      = es.find? (fun kv => kv.1 = k) := by
  induction es with
  | nil => rfl
  | cons e es ih =>
    rw [List.filter_cons]
    by_cases he : e.1 = key
    · have hd : decide (e.1 ≠ key) = false := by simp [he]
      have hek : ¬ e.1 = k := fun e2 => hk (e2.symm.trans he)
      rw [hd, if_neg (by simp), ih, List.find?_cons_of_neg _ (by simpa using hek)]
    · have hd : decide (e.1 ≠ key) = true := by simp [he]
      rw [hd, if_pos rfl]
      by_cases hek : e.1 = k
      · rw [List.find?_cons_of_pos _ (by simpa using hek),
          List.find?_cons_of_pos _ (by simpa using hek)]
      · rw [List.find?_cons_of_neg _ (by simpa using hek),
          List.find?_cons_of_neg _ (by simpa using hek), ih]

theorem Header.Get_Set (h : Header) (key value k : String) :
    (h.Set key value).Get k = if k = key then some value else h.Get k := by
  by_cases hk : k = key
  · subst hk
    simp [Header.Set, Header.Get]
  · have hk2 : ¬ key = k := fun e => hk e.symm
    simp only [Header.Set, Header.Get, hk, if_false]
    rw [List.find?_cons_of_neg _ (by simpa using hk2), find?_filter_key_ne _ _ _ hk]

theorem FindMatch.loop_find (m : String) (fs : List FeatureFlag) (i : Nat)
    (h : ∃ f ∈ fs, f.Market = m) :
    ∃ (k : Nat) (flag : FeatureFlag), FindMatch.loop m fs i = ((i + k : Nat) : Int) ∧
      fs[k]? = some flag ∧ fs.find? (fun f => decide (f.Market = m)) = some flag := by
  induction fs generalizing i with
  | nil => simp at h
  | cons f rest ih =>
    by_cases hf : f.Market = m
    · exact ⟨0, f, by simp [FindMatch.loop, hf], by simp, by simp [hf]⟩
    · have h2 : ∃ f ∈ rest, f.Market = m := by
        obtain ⟨g, hg, hgm⟩ := h
        rcases List.mem_cons.mp hg with rfl | hg
        · exact absurd hgm hf
        · exact ⟨g, hg, hgm⟩
      obtain ⟨k, flag, hk, hget, hfind⟩ := ih (i + 1) h2
      refine ⟨k + 1, flag, ?_, by simpa using hget, by simp [hf, hfind]⟩
      simp only [FindMatch.loop, hf, if_false, hk]
      congr 1
      omega

/-! ## Properties of the handler -/

theorem GetFlags_eq_of_found (env : Env) (gcs : Storage) (w : ResponseWriter)
    (body : List Char) (market : String) (flags : Flags)
    (hreq : jsonDecodeRequestBody body ⟨""⟩ = (⟨market⟩, none))
    (hne : market ≠ "")
    (hload : GetBucketFlagData env gcs = LoaderResult.ok flags)
    (hmem : ∃ f ∈ flags.Flags, f.Market = market) :
    ∃ flag, flags.Flags.find? (fun f => decide (f.Market = market)) = some flag ∧
      GetFlags env gcs w body =
        ⟨EndWithOK (((w.HeaderSet "Access-Control-Allow-Origin"
            env.ACCESS_CONTROL_ALLOW_ORIGIN).HeaderSet
            "Access-Control-Allow-Methods" "POST, GET, OPTIONS").HeaderSet
            "Access-Control-Allow-Headers" "Content-Type") (marshalFeatureFlag flag),
          Outcome.returned, 1⟩ := by
  obtain ⟨k, flag, hk, hget, hfind⟩ := FindMatch.loop_find market flags.Flags 0 hmem
  refine ⟨flag, hfind, ?_⟩
  have hidx : FindMatch flags market = (k : Int) := by simp [FindMatch, hk]
  have hneg : ¬ ((k : Int) = -1) := by omega
  have hslice : sliceIndex flags.Flags (k : Int) = some flag := by
    simp [sliceIndex, hget]
  simp only [GetFlags, hreq, hne, if_false, hload, hidx, hneg, hslice, jsonMarshal]

theorem GetFlags_eq_of_not_found (env : Env) (gcs : Storage) (w : ResponseWriter)
    (body : List Char) (market : String) (flags : Flags)
    (hreq : jsonDecodeRequestBody body ⟨""⟩ = (⟨market⟩, none))
    (hne : market ≠ "")
    (hload : GetBucketFlagData env gcs = LoaderResult.ok flags)
    (hnone : ∀ f ∈ flags.Flags, f.Market ≠ market) :
    GetFlags env gcs w body =
      ⟨EndWithBadRequest (((w.HeaderSet "Access-Control-Allow-Origin"
          env.ACCESS_CONTROL_ALLOW_ORIGIN).HeaderSet
          "Access-Control-Allow-Methods" "POST, GET, OPTIONS").HeaderSet
          "Access-Control-Allow-Headers" "Content-Type") "Did not find any match".data,
        Outcome.returned, 1⟩ := by
  have hidx : FindMatch flags market = -1 :=
    (FindMatch.loop_neg_one_iff market flags.Flags 0).mpr hnone
  simp only [GetFlags, hreq, hne, if_false, hload, hidx, if_true]

/-- C3: a request whose body decodes to a non-empty market that the loaded flag
set contains is answered with status 200, `Content-Type: application/json` and
a body that is exactly the JSON encoding of the first flag of the set with that
market; in scenario A the body is `{"market":"US","newFeatureActive":true}`. -/
theorem GetFlags_found (env : Env) (gcs : Storage) (body : List Char) (market : String)
    (flags : Flags)
    (hreq : jsonDecodeRequestBody body ⟨""⟩ = (⟨market⟩, none))
    (hne : market ≠ "")
    (hload : GetBucketFlagData env gcs = LoaderResult.ok flags)
    (hmem : ∃ f ∈ flags.Flags, f.Market = market) :
    (∃ flag, flags.Flags.find? (fun f => decide (f.Market = market)) = some flag ∧
      (GetFlags env gcs newResponseWriter body).w.body = (jsonMarshal flag).1) ∧
    (GetFlags env gcs newResponseWriter body).outcome = Outcome.returned ∧
    (GetFlags env gcs newResponseWriter body).w.status = some 200 ∧
    (GetFlags env gcs newResponseWriter body).w.sentHeader.Get "Content-Type"
      = some "application/json" ∧
    (GetFlags scenarioEnv (storageWith blobUS) newResponseWriter requestUS).w.body
      = "\x7b\"market\":\"US\",\"newFeatureActive\":true\x7d".data := by
  obtain ⟨flag, hfind, heq⟩ :=
    GetFlags_eq_of_found env gcs newResponseWriter body market flags hreq hne hload hmem
  refine ⟨⟨flag, hfind, ?_⟩, ?_, ?_, ?_, by decide⟩
  · rw [heq]; rfl
  · rw [heq]
  · rw [heq]; rfl
  · rw [heq]
    simp [EndWithOK, ResponseWriter.HeaderSet, ResponseWriter.WriteHeader, ResponseWriter.Write,
      newResponseWriter, Header.Get_Set]

/-- Witness of `GetFlags_found`: scenario A of the specification. -/
theorem GetFlags_found_witness :
    (∃ flag, (Flags.mk [⟨"US", true, none⟩]).Flags.find? (fun f => decide (f.Market = "US"))
        = some flag ∧
      (GetFlags scenarioEnv (storageWith blobUS) newResponseWriter requestUS).w.body
        = (jsonMarshal flag).1) ∧
    (GetFlags scenarioEnv (storageWith blobUS) newResponseWriter requestUS).outcome
      = Outcome.returned ∧
    (GetFlags scenarioEnv (storageWith blobUS) newResponseWriter requestUS).w.status = some 200 ∧
    (GetFlags scenarioEnv (storageWith blobUS) newResponseWriter requestUS).w.sentHeader.Get
      "Content-Type" = some "application/json" ∧
    (GetFlags scenarioEnv (storageWith blobUS) newResponseWriter requestUS).w.body
      = "\x7b\"market\":\"US\",\"newFeatureActive\":true\x7d".data :=
  GetFlags_found scenarioEnv (storageWith blobUS) requestUS "US" ⟨[⟨"US", true, none⟩]⟩
    (by decide) (by decide) (by decide) ⟨⟨"US", true, none⟩, by decide, rfl⟩

/-- C4, as stated, fails in scenario B: the body written for the unknown market
FR is not the text `Bad request` alone; `http.Error` ends the message with a
line feed. -/
theorem GetFlags_not_found_body_counterexample :
    (GetFlags scenarioEnv (storageWith blobUS) newResponseWriter requestFR).w.status = some 400 ∧
    (GetFlags scenarioEnv (storageWith blobUS) newResponseWriter requestFR).w.body
      ≠ "Bad request".data := by
  decide

/-- C4, amended: a request whose body decodes to a non-empty market that no flag
of the loaded set has is answered with status 400, `Content-Type:
text/plain; charset=utf-8` and the body `Bad request` followed by a line feed;
nothing else, in particular no flag data, is written. -/
theorem GetFlags_not_found (env : Env) (gcs : Storage) (body : List Char) (market : String)
    (flags : Flags)
    (hreq : jsonDecodeRequestBody body ⟨""⟩ = (⟨market⟩, none))
    (hne : market ≠ "")
    (hload : GetBucketFlagData env gcs = LoaderResult.ok flags)
    (hnone : ∀ f ∈ flags.Flags, f.Market ≠ market) :
    (GetFlags env gcs newResponseWriter body).outcome = Outcome.returned ∧
    (GetFlags env gcs newResponseWriter body).w.status = some 400 ∧
    (GetFlags env gcs newResponseWriter body).w.sentHeader.Get "Content-Type"
      = some "text/plain; charset=utf-8" ∧
    (GetFlags env gcs newResponseWriter body).w.body = "Bad request\n".data := by
  rw [GetFlags_eq_of_not_found env gcs newResponseWriter body market flags hreq hne hload hnone]
  refine ⟨rfl, rfl, ?_, rfl⟩
  simp [EndWithBadRequest, httpError, ResponseWriter.HeaderSet, ResponseWriter.WriteHeader,
    ResponseWriter.Write, newResponseWriter, Header.Get_Set]

/-- Witness of `GetFlags_not_found`: scenario B of the specification. -/
theorem GetFlags_not_found_witness :
    (GetFlags scenarioEnv (storageWith blobUS) newResponseWriter requestFR).outcome
      = Outcome.returned ∧
    (GetFlags scenarioEnv (storageWith blobUS) newResponseWriter requestFR).w.status = some 400 ∧
    (GetFlags scenarioEnv (storageWith blobUS) newResponseWriter requestFR).w.sentHeader.Get
      "Content-Type" = some "text/plain; charset=utf-8" ∧
    (GetFlags scenarioEnv (storageWith blobUS) newResponseWriter requestFR).w.body
      = "Bad request\n".data :=
  GetFlags_not_found scenarioEnv (storageWith blobUS) requestFR "FR" ⟨[⟨"US", true, none⟩]⟩
    (by decide) (by decide) (by decide) (by decide)

/-- C5 fails on the code: after `EndWithBadRequest` for an empty market the
handler does not return. In scenario C it goes on to invoke the loader and
writes `Bad request` a second time; when the stored flag set has a flag whose
market is empty, the encoding of that flag is appended to the error body. -/
theorem GetFlags_empty_market_continues :
    (jsonDecodeRequestBody requestEmptyMarket ⟨""⟩ = (⟨""⟩, none)) ∧
    (GetFlags scenarioEnv (storageWith blobUS) newResponseWriter requestEmptyMarket).loaderCalls
      = 1 ∧
    (GetFlags scenarioEnv (storageWith blobUS) newResponseWriter requestEmptyMarket).w.status
      = some 400 ∧
    (GetFlags scenarioEnv (storageWith blobUS) newResponseWriter requestEmptyMarket).w.body
      = "Bad request\nBad request\n".data ∧
    (GetFlags scenarioEnv
        (storageWith "\x7b\"featureFlags\":[\x7b\"newFeatureActive\":true\x7d]\x7d")
        newResponseWriter requestEmptyMarket).w.body
      = "Bad request\n\x7b\"market\":\"\",\"newFeatureActive\":true\x7d".data ∧
    (GetFlags scenarioEnv storageDown newResponseWriter requestEmptyMarket).outcome
      = Outcome.exited 1 := by
  decide

/-- C6, as stated, fails: on a body that is not JSON, and on a missing body,
the handler panics with the decode error and writes neither a status code nor a
body. -/
theorem GetFlags_malformed_body_counterexample :
    (GetFlags scenarioEnv (storageWith blobUS) newResponseWriter "not json".data).outcome
      = Outcome.panicked (PanicValue.error JsonError.SyntaxError) ∧
    (GetFlags scenarioEnv (storageWith blobUS) newResponseWriter "not json".data).w.status
      = none ∧
    (GetFlags scenarioEnv (storageWith blobUS) newResponseWriter []).outcome
      = Outcome.panicked (PanicValue.error JsonError.EOF) ∧
    (GetFlags scenarioEnv (storageWith blobUS) newResponseWriter []).w.status = none := by
  decide

/-- C6, amended: when decoding the request body fails, the handler panics with
the decode error; by then it has set the three CORS headers, and it writes no
status code and no body and does not invoke the loader. -/
theorem GetFlags_decode_error_panics (env : Env) (gcs : Storage) (body : List Char)
    (requestBody : RequestBody) (err : JsonError)
    (hreq : jsonDecodeRequestBody body ⟨""⟩ = (requestBody, some err)) :
    (GetFlags env gcs newResponseWriter body).outcome = Outcome.panicked (PanicValue.error err) ∧
    (GetFlags env gcs newResponseWriter body).w.status = none ∧
    (GetFlags env gcs newResponseWriter body).w.body = [] ∧
    (GetFlags env gcs newResponseWriter body).loaderCalls = 0 ∧
    (GetFlags env gcs newResponseWriter body).w.header.Get "Access-Control-Allow-Origin"
      = some env.ACCESS_CONTROL_ALLOW_ORIGIN ∧
    (GetFlags env gcs newResponseWriter body).w.header.Get "Access-Control-Allow-Methods"
      = some "POST, GET, OPTIONS" ∧
    (GetFlags env gcs newResponseWriter body).w.header.Get "Access-Control-Allow-Headers"
      = some "Content-Type" := by
  simp only [GetFlags, hreq]
  simp [ResponseWriter.HeaderSet, newResponseWriter, Header.Get_Set]

/-- Witness of `GetFlags_decode_error_panics`: the body `{"Market":5}`. -/
theorem GetFlags_decode_error_panics_witness :
    (GetFlags scenarioEnv (storageWith blobUS) newResponseWriter
        "\x7b\"Market\":5\x7d".data).outcome
      = Outcome.panicked (PanicValue.error JsonError.UnmarshalTypeError) ∧
    (GetFlags scenarioEnv (storageWith blobUS) newResponseWriter
        "\x7b\"Market\":5\x7d".data).w.status = none ∧
    (GetFlags scenarioEnv (storageWith blobUS) newResponseWriter
        "\x7b\"Market\":5\x7d".data).w.body = [] ∧
    (GetFlags scenarioEnv (storageWith blobUS) newResponseWriter
        "\x7b\"Market\":5\x7d".data).loaderCalls = 0 ∧
    (GetFlags scenarioEnv (storageWith blobUS) newResponseWriter
        "\x7b\"Market\":5\x7d".data).w.header.Get "Access-Control-Allow-Origin"
      = some scenarioEnv.ACCESS_CONTROL_ALLOW_ORIGIN ∧
    (GetFlags scenarioEnv (storageWith blobUS) newResponseWriter
        "\x7b\"Market\":5\x7d".data).w.header.Get "Access-Control-Allow-Methods"
      = some "POST, GET, OPTIONS" ∧
    (GetFlags scenarioEnv (storageWith blobUS) newResponseWriter
        "\x7b\"Market\":5\x7d".data).w.header.Get "Access-Control-Allow-Headers"
      = some "Content-Type" :=
  GetFlags_decode_error_panics scenarioEnv (storageWith blobUS) "\x7b\"Market\":5\x7d".data
    ⟨""⟩ JsonError.UnmarshalTypeError (by decide)

/-- C7 fails on the code: the error of `json.Unmarshal` is dropped. For a blob
that is not JSON the loader returns the empty flag set as if the load had
succeeded, and the handler answers 400; for a blob of the right shape with a
field of the wrong type it returns the partially filled flag set, and the
handler serves it. -/
theorem GetBucketFlagData_drops_decode_error :
    (jsonUnmarshalFlags "\x7b\"featureFlags\": oops".data ⟨[]⟩).2
      = some JsonError.SyntaxError ∧
    GetBucketFlagData scenarioEnv (storageWith "\x7b\"featureFlags\": oops")
      = LoaderResult.ok ⟨[]⟩ ∧
    (GetFlags scenarioEnv (storageWith "\x7b\"featureFlags\": oops") newResponseWriter
        requestUS).w.status = some 400 ∧
    (jsonUnmarshalFlags
        "\x7b\"featureFlags\":[\x7b\"market\":\"US\",\"newFeatureActive\":\"yes\"\x7d]\x7d".data
        ⟨[]⟩).2 = some JsonError.UnmarshalTypeError ∧
    GetBucketFlagData scenarioEnv (storageWith
        "\x7b\"featureFlags\":[\x7b\"market\":\"US\",\"newFeatureActive\":\"yes\"\x7d]\x7d")
      = LoaderResult.ok ⟨[⟨"US", false, none⟩]⟩ ∧
    (GetFlags scenarioEnv (storageWith
        "\x7b\"featureFlags\":[\x7b\"market\":\"US\",\"newFeatureActive\":\"yes\"\x7d]\x7d")
        newResponseWriter requestUS).w.status = some 200 := by
  decide

/-- C8, as stated, fails: when the storage client cannot be constructed, the
request `{"Market":"US"}` gets no response of class 500; no status code is
written at all and the process exits with status 1. -/
theorem GetFlags_backend_down_counterexample :
    (GetFlags scenarioEnv storageDown newResponseWriter requestUS).w.status = none ∧
    (GetFlags scenarioEnv storageDown newResponseWriter requestUS).outcome
      = Outcome.exited 1 := by
  decide

/-- C8, amended: for a request with a non-empty market, when the storage client
cannot be constructed, the listing of the bucket fails or the object cannot be
opened, the handler writes no status code and no body, and `log.Fatal`
terminates the process with exit status 1. -/
theorem GetFlags_backend_failure_exits (env : Env) (gcs : Storage) (body : List Char)
    (market : String)
    (hreq : jsonDecodeRequestBody body ⟨""⟩ = (⟨market⟩, none))
    (hne : market ≠ "")
    (hfail : gcs.NewClient ≠ none ∨ (gcs.Objects env.BUCKET_NAME).2 ≠ none ∨
      ∃ err, gcs.NewReader env.BUCKET_NAME env.DATA_FILENAME = Except.error err) :
    (GetFlags env gcs newResponseWriter body).outcome = Outcome.exited 1 ∧
    (GetFlags env gcs newResponseWriter body).w.status = none ∧
    (GetFlags env gcs newResponseWriter body).w.body = [] ∧
    (GetFlags env gcs newResponseWriter body).loaderCalls = 1 := by
  have hfatal : ∃ msg, GetBucketFlagData env gcs = LoaderResult.fatal msg := by
    unfold GetBucketFlagData
    cases h1 : gcs.NewClient with
    | some e => exact ⟨_, rfl⟩
    | none =>
      cases h2 : (gcs.Objects env.BUCKET_NAME).2 with
      | some e => exact ⟨_, rfl⟩
      | none =>
        cases h3 : gcs.NewReader env.BUCKET_NAME env.DATA_FILENAME with
        | error e => exact ⟨_, rfl⟩
        | ok rdr =>
          rcases hfail with h | h | ⟨e, h⟩
          · exact absurd h1 h
          · exact absurd h2 h
          · rw [h3] at h
            cases h
  obtain ⟨msg, hmsg⟩ := hfatal
  simp [GetFlags, hreq, hne, hmsg, ResponseWriter.HeaderSet, newResponseWriter]

/-- Witness of `GetFlags_backend_failure_exits`: the object cannot be opened. -/
theorem GetFlags_backend_failure_exits_witness :
    (GetFlags scenarioEnv ⟨none, fun _ => ([], none),
        fun _ _ => Except.error "storage: object doesn't exist"⟩
        newResponseWriter requestUS).outcome = Outcome.exited 1 ∧
    (GetFlags scenarioEnv ⟨none, fun _ => ([], none),
        fun _ _ => Except.error "storage: object doesn't exist"⟩
        newResponseWriter requestUS).w.status = none ∧
    (GetFlags scenarioEnv ⟨none, fun _ => ([], none),
        fun _ _ => Except.error "storage: object doesn't exist"⟩
        newResponseWriter requestUS).w.body = [] ∧
    (GetFlags scenarioEnv ⟨none, fun _ => ([], none),
        fun _ _ => Except.error "storage: object doesn't exist"⟩
        newResponseWriter requestUS).loaderCalls = 1 :=
  GetFlags_backend_failure_exits scenarioEnv _ requestUS "US" (by decide) (by decide)
    (Or.inr (Or.inr ⟨_, rfl⟩))

/-- C9, as stated, fails in its last part: `EndWithBadRequest` changes a header
other than `Content-Type`, since `http.Error` sets `X-Content-Type-Options`. -/
theorem EndWithBadRequest_sets_nosniff_counterexample :
    (EndWithBadRequest newResponseWriter []).header.Get "X-Content-Type-Options"
      ≠ newResponseWriter.header.Get "X-Content-Type-Options" := by
  decide

theorem GetFlags_header_frame (env : Env) (gcs : Storage) (w : ResponseWriter)
    (body : List Char) (k : String) (hk1 : k ≠ "Content-Type")
    (hk2 : k ≠ "X-Content-Type-Options") :
    (GetFlags env gcs w body).w.header.Get k =
      ((((w.HeaderSet "Access-Control-Allow-Origin"
          env.ACCESS_CONTROL_ALLOW_ORIGIN).HeaderSet
          "Access-Control-Allow-Methods" "POST, GET, OPTIONS").HeaderSet
          "Access-Control-Allow-Headers" "Content-Type")).header.Get k := by
  have hOK : ∀ (w : ResponseWriter) (data : List Char),
      (EndWithOK w data).header.Get k = w.header.Get k := by
    intro w data
    cases hs : w.status <;>
      simp [EndWithOK, ResponseWriter.HeaderSet, ResponseWriter.WriteHeader,
        ResponseWriter.Write, hs, Header.Get_Set, hk1]
  have hBad : ∀ (w : ResponseWriter) (e : List Char),
      (EndWithBadRequest w e).header.Get k = w.header.Get k := by
    intro w e
    cases hs : w.status <;>
      simp [EndWithBadRequest, httpError, ResponseWriter.HeaderSet, ResponseWriter.WriteHeader,
        ResponseWriter.Write, hs, Header.Get_Set, hk1, hk2]
  unfold GetFlags
  simp only []
  split
  · rfl
  · split
    · split <;> simp [hBad]
    · split
      · split <;> simp [hBad]
      · split
        · split <;> simp [hBad]
        · split
          · split <;> simp [hBad]
          · split <;> simp [hBad, hOK]

theorem EndWithOK_sent (w : ResponseWriter) (data : List Char) (k : String)
    (hk1 : k ≠ "Content-Type") :
    (EndWithOK w data).status = some (w.status.getD 200) ∧
    (EndWithOK w data).sentHeader.Get k =
      if w.status = none then w.header.Get k else w.sentHeader.Get k := by
  cases hs : w.status <;>
    simp [EndWithOK, ResponseWriter.HeaderSet, ResponseWriter.WriteHeader,
      ResponseWriter.Write, hs, Header.Get_Set, hk1, StatusOK]

theorem EndWithBadRequest_sent (w : ResponseWriter) (e : List Char) (k : String)
    (hk1 : k ≠ "Content-Type") (hk2 : k ≠ "X-Content-Type-Options") :
    (EndWithBadRequest w e).status = some (w.status.getD 400) ∧
    (EndWithBadRequest w e).sentHeader.Get k =
      if w.status = none then w.header.Get k else w.sentHeader.Get k := by
  cases hs : w.status <;>
    simp [EndWithBadRequest, httpError, ResponseWriter.HeaderSet, ResponseWriter.WriteHeader,
      ResponseWriter.Write, hs, Header.Get_Set, hk1, hk2, StatusBadRequest]

theorem GetFlags_sent_frame (env : Env) (gcs : Storage) (body : List Char) (k : String)
    (hk1 : k ≠ "Content-Type") (hk2 : k ≠ "X-Content-Type-Options")
    (hs : (GetFlags env gcs newResponseWriter body).w.status ≠ none) :
    (GetFlags env gcs newResponseWriter body).w.sentHeader.Get k =
      ((((newResponseWriter.HeaderSet "Access-Control-Allow-Origin"
          env.ACCESS_CONTROL_ALLOW_ORIGIN).HeaderSet
          "Access-Control-Allow-Methods" "POST, GET, OPTIONS").HeaderSet
          "Access-Control-Allow-Headers" "Content-Type")).header.Get k := by
  have hOK := fun w d => EndWithOK_sent w d k hk1
  have hBad := fun w e => EndWithBadRequest_sent w e k hk1 hk2
  have hBadH : ∀ (w : ResponseWriter) (e : List Char),
      (EndWithBadRequest w e).header.Get k = w.header.Get k := by
    intro w e
    cases hs : w.status <;>
      simp [EndWithBadRequest, httpError, ResponseWriter.HeaderSet, ResponseWriter.WriteHeader,
        ResponseWriter.Write, hs, Header.Get_Set, hk1, hk2]
  have h1 : (((newResponseWriter.HeaderSet "Access-Control-Allow-Origin"
          env.ACCESS_CONTROL_ALLOW_ORIGIN).HeaderSet
          "Access-Control-Allow-Methods" "POST, GET, OPTIONS").HeaderSet
          "Access-Control-Allow-Headers" "Content-Type").status = none := rfl
  revert hs
  unfold GetFlags
  simp only []
  split
  · intro hs
    exact absurd h1 hs
  · split
    · split
      · intro _
        simp [(hBad _ _).2, h1]
      · intro hs
        exact absurd h1 hs
    · split
      · split
        · intro _
          simp [(hBad _ _).2, (hBad _ _).1, h1]
        · intro _
          simp [(hBad _ _).2, h1]
      · split
        · split
          · intro _
            simp [(hBad _ _).2, h1]
          · intro hs
            exact absurd h1 hs
        · split
          · split
            · intro _
              simp [(hBad _ _).2, h1]
            · intro hs
              exact absurd h1 hs
          · split
            · intro _
              simp [(hOK _ _).2, (hBad _ _).2, (hBad _ _).1, h1]
            · intro _
              simp [(hOK _ _).2, h1]

/-- C9, amended: whatever the request and the storage service, the handler has
set the three CORS headers (`Access-Control-Allow-Origin` to the configured
origin, `Access-Control-Allow-Methods` to `POST, GET, OPTIONS`,
`Access-Control-Allow-Headers` to `Content-Type`), and whenever a status code
has been written the headers sent with it carry the three, that is they were
set before the status was written. `EndWithOK` changes no header other than
`Content-Type`; `EndWithBadRequest` changes no header other than `Content-Type`
and `X-Content-Type-Options`; both leave the CORS headers untouched. -/
theorem GetFlags_cors_headers (env : Env) (gcs : Storage) (body : List Char) :
    ((GetFlags env gcs newResponseWriter body).w.header.Get "Access-Control-Allow-Origin"
        = some env.ACCESS_CONTROL_ALLOW_ORIGIN ∧
      (GetFlags env gcs newResponseWriter body).w.header.Get "Access-Control-Allow-Methods"
        = some "POST, GET, OPTIONS" ∧
      (GetFlags env gcs newResponseWriter body).w.header.Get "Access-Control-Allow-Headers"
        = some "Content-Type") ∧
    ((GetFlags env gcs newResponseWriter body).w.status ≠ none →
      (GetFlags env gcs newResponseWriter body).w.sentHeader.Get "Access-Control-Allow-Origin"
        = some env.ACCESS_CONTROL_ALLOW_ORIGIN ∧
      (GetFlags env gcs newResponseWriter body).w.sentHeader.Get "Access-Control-Allow-Methods"
        = some "POST, GET, OPTIONS" ∧
      (GetFlags env gcs newResponseWriter body).w.sentHeader.Get "Access-Control-Allow-Headers"
        = some "Content-Type") ∧
    (∀ (w : ResponseWriter) (data : List Char) (k : String), k ≠ "Content-Type" →
      (EndWithOK w data).header.Get k = w.header.Get k) ∧
    (∀ (w : ResponseWriter) (err : List Char) (k : String), k ≠ "Content-Type" →
      k ≠ "X-Content-Type-Options" →
      (EndWithBadRequest w err).header.Get k = w.header.Get k) := by
  refine ⟨⟨?_, ?_, ?_⟩, ?_, ?_, ?_⟩
  · rw [GetFlags_header_frame env gcs _ body _ (by decide) (by decide)]
    simp [ResponseWriter.HeaderSet, Header.Get_Set]
  · rw [GetFlags_header_frame env gcs _ body _ (by decide) (by decide)]
    simp [ResponseWriter.HeaderSet, Header.Get_Set]
  · rw [GetFlags_header_frame env gcs _ body _ (by decide) (by decide)]
    simp [ResponseWriter.HeaderSet, Header.Get_Set]
  · intro hs
    rw [GetFlags_sent_frame env gcs body _ (by decide) (by decide) hs,
      GetFlags_sent_frame env gcs body _ (by decide) (by decide) hs,
      GetFlags_sent_frame env gcs body _ (by decide) (by decide) hs]
    simp [ResponseWriter.HeaderSet, Header.Get_Set]
  · intro w data k hk1
    cases hs : w.status <;>
      simp [EndWithOK, ResponseWriter.HeaderSet, ResponseWriter.WriteHeader,
        ResponseWriter.Write, hs, Header.Get_Set, hk1]
  · intro w e k hk1 hk2
    cases hs : w.status <;>
      simp [EndWithBadRequest, httpError, ResponseWriter.HeaderSet, ResponseWriter.WriteHeader,
        ResponseWriter.Write, hs, Header.Get_Set, hk1, hk2]

/-! ## The encoder and the decoder are inverse on flags -/


theorem scanString_quote (rest : List Char) : scanString ('"' :: rest) = some ([], rest) := by
  rw [scanString.eq_def]; simp

theorem scanString_plain (c : Char) (rest : List Char) (h1 : c ≠ '"') (h2 : c ≠ '\\')
    (h3 : 32 ≤ c.toNat) :
    scanString (c :: rest) = (scanString rest).map fun r => (c :: r.1, r.2) := by
  rw [scanString.eq_def]
  simp [h1, h2, Nat.not_lt.mpr h3]

theorem scanString_escape (e : Char) (rest : List Char) (hu : e ≠ 'u')
    (he : e = 'b' ∨ e = 'f' ∨ e = 'n' ∨ e = 'r' ∨ e = 't' ∨ e = '\\' ∨ e = '/' ∨ e = '"') :
    scanString ('\\' :: e :: rest) = (scanString rest).map fun r => ('\\' :: e :: r.1, r.2) := by
  rw [scanString.eq_def]
  simp [hu]
  intros
  exfalso
  tauto

theorem scanString_u (h1 h2 h3 h4 : Char) (rest : List Char)
    (hh : isHex h1 = true ∧ isHex h2 = true ∧ isHex h3 = true ∧ isHex h4 = true) :
    scanString ('\\' :: 'u' :: h1 :: h2 :: h3 :: h4 :: rest)
      = (scanString rest).map fun r => ('\\' :: 'u' :: h1 :: h2 :: h3 :: h4 :: r.1, r.2) := by
  rw [scanString.eq_def]
  simp [hh]

theorem hexDigit_spec : ∀ n : Fin 16,
    isHex (hexDigit n.val) = true ∧ hexVal (hexDigit n.val) = n.val := by
  decide

theorem isHex_hexDigit (n : Nat) (h : n < 16) : isHex (hexDigit n) = true :=
  (hexDigit_spec ⟨n, h⟩).1

theorem hexVal_hexDigit (n : Nat) (h : n < 16) : hexVal (hexDigit n) = n :=
  (hexDigit_spec ⟨n, h⟩).2

theorem scanString_encodeChar (c : Char) (tail : List Char) :
    scanString (encodeChar c ++ tail)
      = (scanString tail).map fun r => (encodeChar c ++ r.1, r.2) := by
  unfold encodeChar
  split
  · rename_i h1
    split
    · rename_i h2
      simp only [htmlSafe, Bool.and_eq_true, decide_eq_true_eq, Bool.not_eq_true',
        Bool.or_eq_false_iff, decide_eq_false_iff_not] at h2
      simp only [List.singleton_append, List.cons_append, List.nil_append]
      rw [scanString_plain c tail (by tauto) (by tauto) (by tauto)]
    · split
      · rename_i h3
        simp only [Bool.or_eq_true, decide_eq_true_eq] at h3
        simp only [List.cons_append, List.nil_append]
        rw [scanString_escape c tail (by rcases h3 with rfl | rfl <;> decide) (by tauto)]
      · split
        · simp only [List.cons_append, List.nil_append]
          rw [scanString_escape _ tail (by decide) (by decide)]
        · split
          · simp only [List.cons_append, List.nil_append]
            rw [scanString_escape _ tail (by decide) (by decide)]
          · split
            · simp only [List.cons_append, List.nil_append]
              rw [scanString_escape _ tail (by decide) (by decide)]
            · simp only [List.cons_append, List.nil_append]
              rw [scanString_u _ _ _ _ tail ⟨by decide, by decide,
                isHex_hexDigit _ (by omega), isHex_hexDigit _ (by omega)⟩]
  · rename_i h1
    split
    · simp only [List.cons_append, List.nil_append]
      rw [scanString_u _ _ _ _ tail ⟨by decide, by decide, by decide,
        isHex_hexDigit _ (by omega)⟩]
    · simp only [List.singleton_append, List.cons_append, List.nil_append]
      have h34 : c ≠ '"' := by
        rintro rfl
        exact h1 (by decide)
      have h92 : c ≠ '\\' := by
        rintro rfl
        exact h1 (by decide)
      rw [scanString_plain c tail h34 h92 (by omega)]

theorem scanString_encode (s : List Char) (rest : List Char) :
    scanString (s.flatMap encodeChar ++ '"' :: rest) = some (s.flatMap encodeChar, rest) := by
  induction s with
  | nil => simp [scanString_quote]
  | cons c s ih =>
    simp only [List.flatMap_cons, List.append_assoc]
    rw [scanString_encodeChar, ih]
    rfl



theorem unquoteFrom_plain (c : Char) (rest : List Char) (h : c ≠ '\\') :
    unquoteFrom 0 (c :: rest) = c :: unquoteFrom 0 rest := by
  rw [unquoteFrom.eq_def]
  simp [h]

theorem unquoteFrom_escape (e : Char) (rest : List Char) (hu : e ≠ 'u') :
    unquoteFrom 0 ('\\' :: e :: rest) = unescape e :: unquoteFrom 0 rest := by
  rw [unquoteFrom.eq_def]
  simp [hu]

theorem unquoteFrom_u (h1 h2 h3 h4 : Char) (rest : List Char)
    (hs : utf16IsSurrogate (hex4 h1 h2 h3 h4) = false) :
    unquoteFrom 0 ('\\' :: 'u' :: h1 :: h2 :: h3 :: h4 :: rest)
      = Char.ofNat (hex4 h1 h2 h3 h4) :: unquoteFrom 0 rest := by
  rw [unquoteFrom.eq_def]
  simp [hs]

theorem unquoteFrom_encodeChar (c : Char) (tail : List Char) :
    unquoteFrom 0 (encodeChar c ++ tail) = c :: unquoteFrom 0 tail := by
  unfold encodeChar
  split
  · rename_i h1
    split
    · rename_i h2
      simp only [htmlSafe, Bool.and_eq_true, decide_eq_true_eq, Bool.not_eq_true',
        Bool.or_eq_false_iff, decide_eq_false_iff_not] at h2
      simp only [List.singleton_append, List.cons_append, List.nil_append]
      rw [unquoteFrom_plain c tail (by tauto)]
    · split
      · rename_i h3
        simp only [Bool.or_eq_true, decide_eq_true_eq] at h3
        simp only [List.cons_append, List.nil_append]
        rw [unquoteFrom_escape c tail (by rcases h3 with rfl | rfl <;> decide)]
        rcases h3 with rfl | rfl <;> rfl
      · split
        · rename_i h4
          subst h4
          simp only [List.cons_append, List.nil_append]
          rw [unquoteFrom_escape _ tail (by decide)]
          rfl
        · split
          · rename_i h4
            subst h4
            simp only [List.cons_append, List.nil_append]
            rw [unquoteFrom_escape _ tail (by decide)]
            rfl
          · split
            · rename_i h4
              subst h4
              simp only [List.cons_append, List.nil_append]
              rw [unquoteFrom_escape _ tail (by decide)]
              rfl
            · simp only [List.cons_append, List.nil_append]
              have hv : hex4 '0' '0' (hexDigit (c.toNat / 16)) (hexDigit (c.toNat % 16))
                  = c.toNat := by
                simp only [hex4, hexVal_hexDigit _ (show c.toNat / 16 < 16 by omega),
                  hexVal_hexDigit _ (show c.toNat % 16 < 16 by omega)]
                have : hexVal '0' = 0 := by decide
                rw [this]
                omega
              rw [unquoteFrom_u _ _ _ _ tail (by rw [hv]; simp [utf16IsSurrogate]; omega), hv,
                Char.ofNat_toNat]
  · rename_i h1
    split
    · rename_i h2
      simp only [Bool.or_eq_true, decide_eq_true_eq] at h2
      simp only [List.cons_append, List.nil_append]
      have hv : hex4 '2' '0' '2' (hexDigit (c.toNat % 16)) = c.toNat := by
        simp only [hex4, hexVal_hexDigit _ (show c.toNat % 16 < 16 by omega)]
        have h0 : hexVal '0' = 0 := by decide
        have h2 : hexVal '2' = 2 := by decide
        rw [h0, h2]
        omega
      rw [unquoteFrom_u _ _ _ _ tail (by rw [hv]; simp [utf16IsSurrogate]; omega), hv,
        Char.ofNat_toNat]
    · simp only [List.singleton_append, List.cons_append, List.nil_append]
      have h92 : c ≠ '\\' := by
        rintro rfl
        exact h1 (by decide)
      rw [unquoteFrom_plain c tail h92]

theorem unquote_encode (s : List Char) : unquote (s.flatMap encodeChar) = s := by
  unfold unquote
  induction s with
  | nil => simp [unquoteFrom]
  | cons c s ih =>
    simp only [List.flatMap_cons]
    rw [unquoteFrom_encodeChar, ih]

theorem digitChar_spec : ∀ d : Fin 10,
    isDigit (Char.ofNat (48 + d.val)) = true ∧ (Char.ofNat (48 + d.val)).toNat - 48 = d.val ∧
    Char.ofNat (48 + d.val) ≠ '-' ∧ Char.ofNat (48 + d.val) ≠ '+' ∧
    (Char.ofNat (48 + d.val) = '0' ↔ d.val = 0) := by
  decide

theorem digitsValue_append (xs ys : List Char) (acc : Nat) :
    digitsValue (xs ++ ys) acc = (digitsValue xs acc).bind (digitsValue ys) := by
  induction xs generalizing acc with
  | nil => simp [digitsValue]
  | cons c xs ih =>
    simp only [List.cons_append, digitsValue]
    split
    · exact ih _
    · rfl

theorem scanDigits_append (ds : List Char) (c : Char) (rest : List Char)
    (hds : ∀ d ∈ ds, isDigit d = true) (hc : isDigit c = false) :
    scanDigits (ds ++ c :: rest) = (ds, c :: rest) := by
  induction ds with
  | nil => simp [scanDigits, hc]
  | cons d ds ih =>
    have hd : isDigit d = true := hds d (by simp)
    have := ih (fun x hx => hds x (by simp [hx]))
    simp [scanDigits, hd, this]

/-- Facts about the decimal digits `formatBits` writes. -/
theorem formatBits_spec (fuel n : Nat) (h : n < fuel) :
    (∀ d ∈ formatBits fuel n, isDigit d = true) ∧
    digitsValue (formatBits fuel n) 0 = some n ∧
    ∃ d tl, formatBits fuel n = d :: tl ∧ (d = '0' → tl = []) := by
  induction fuel generalizing n with
  | zero => omega
  | succ fuel ih =>
    by_cases hn : n < 10
    · have hs := digitChar_spec ⟨n, hn⟩
      simp only [formatBits, hn, if_true]
      refine ⟨?_, ?_, _, [], rfl, fun _ => rfl⟩
      · intro d hd
        simp only [List.mem_singleton] at hd
        subst hd
        exact hs.1
      · simp [digitsValue, hs.1, hs.2.1]
    · have hs := digitChar_spec ⟨n % 10, Nat.mod_lt _ (by decide)⟩
      obtain ⟨h1, h2, d, tl, h3, h4⟩ := ih (n / 10) (by omega)
      simp only [formatBits, hn, if_false]
      refine ⟨?_, ?_, ?_⟩
      · intro x hx
        rcases List.mem_append.mp hx with hx | hx
        · exact h1 x hx
        · simp only [List.mem_singleton] at hx
          subst hx
          exact hs.1
      · rw [digitsValue_append, h2]
        simp only [Option.some_bind, digitsValue, hs.1, if_true, hs.2.1]
        congr 1
        omega
      · refine ⟨d, tl ++ [Char.ofNat (48 + n % 10)], by rw [h3]; rfl, ?_⟩
        intro hd0
        exfalso
        -- a leading zero would make n / 10 = 0
        have htl := h4 hd0
        subst htl
        rw [h3, hd0] at h2
        simp [digitsValue, isDigit] at h2
        omega

theorem scanFraction_end (c : Char) (rest : List Char) (h1 : c ≠ '.') (h2 : c ≠ 'e')
    (h3 : c ≠ 'E') : scanFraction (c :: rest) = some ([], c :: rest) := by
  simp [scanFraction, h1, h2, h3]

/-- A number the encoder wrote is scanned back as the same literal when a
separator follows it. -/
theorem scanNumber_formatInt (n : Int) (c : Char) (rest : List Char)
    (hc : c = ',' ∨ c = '}') :
    scanNumber (strconvFormatInt n ++ c :: rest) = some (strconvFormatInt n, c :: rest) ∧
    ∃ d tl, strconvFormatInt n = d :: tl ∧ (d = '-' ∨ isDigit d = true) := by
  have hcd : isDigit c = false := by rcases hc with rfl | rfl <;> decide
  have hfrac : scanFraction (c :: rest) = some ([], c :: rest) :=
    scanFraction_end c rest (by rcases hc with rfl | rfl <;> decide)
      (by rcases hc with rfl | rfl <;> decide) (by rcases hc with rfl | rfl <;> decide)
  obtain ⟨hall, _, d, tl, hfmt, hzero⟩ := formatBits_spec (n.natAbs + 1) n.natAbs (by omega)
  have hd : isDigit d = true := hall d (by rw [hfmt]; simp)
  have htl : ∀ x ∈ tl, isDigit x = true := fun x hx => hall x (by rw [hfmt]; simp [hx])
  have hint : scanInteger (d :: tl ++ c :: rest) = some (d :: tl, c :: rest) := by
    by_cases hd0 : d = '0'
    · have := hzero hd0
      subst this
      simp [scanInteger, hd0, hfrac]
    · simp [scanInteger, hd0, hd, scanDigits_append tl c rest htl hcd, hfrac]
  have hdm : d ≠ '-' := by
    rintro rfl
    exact absurd hd (by decide)
  unfold strconvFormatInt
  split
  · rw [hfmt]
    refine ⟨?_, _, _, rfl, Or.inl rfl⟩
    simp only [List.cons_append, scanNumber, if_true]
    rw [← List.cons_append, hint]
    rfl
  · rw [hfmt]
    refine ⟨?_, _, _, rfl, Or.inr hd⟩
    simp only [List.cons_append, scanNumber, hdm, if_false]
    rw [← List.cons_append, hint]

theorem strconvParseInt_formatInt (n : Int) (h : intInRange n) :
    strconvParseInt (strconvFormatInt n) = some n := by
  obtain ⟨hall, hval, d, tl, hfmt, _⟩ := formatBits_spec (n.natAbs + 1) n.natAbs (by omega)
  have hd : isDigit d = true := hall d (by rw [hfmt]; simp)
  have hdm : d ≠ '-' := by
    rintro rfl
    exact absurd hd (by decide)
  have hdp : d ≠ '+' := by
    rintro rfl
    exact absurd hd (by decide)
  unfold strconvFormatInt
  split
  · rename_i hneg
    have hn : -((n.natAbs : Nat) : Int) = n := by omega
    rw [hfmt] at hval ⊢
    simp only [strconvParseInt, if_true, hval, hn, h]
  · rename_i hneg
    have hn : ((n.natAbs : Nat) : Int) = n := by omega
    rw [hfmt] at hval ⊢
    simp only [strconvParseInt, hdm, hdp, if_false, hval, hn, h, if_true]



theorem skipSpace_cons (c : Char) (rest : List Char) (h : isSpace c = false) :
    skipSpace (c :: rest) = c :: rest := by
  simp [skipSpace, h]

theorem parseValue_object (fuel : Nat) (rest : List Char) :
    parseValue (fuel + 1) ('{' :: '"' :: rest)
      = (parseMembers fuel ('"' :: rest)).map fun x => (JsonValue.object x.1, x.2) := by
  rw [parseValue.eq_def]
  simp [skipSpace_cons _ _ (show isSpace '{' = false by decide),
    skipSpace_cons _ _ (show isSpace '"' = false by decide)]

theorem parseMembers_more (fuel : Nat) (rest rawKey value more : List Char) (v : JsonValue)
    (hkey : scanString rest = some (rawKey, ':' :: value))
    (hval : parseValue fuel value = some (v, ',' :: more)) :
    parseMembers (fuel + 1) ('"' :: rest)
      = (parseMembers fuel more).map fun x => ((unquote rawKey, v) :: x.1, x.2) := by
  rw [parseMembers.eq_def]
  simp [skipSpace_cons _ _ (show isSpace '"' = false by decide), hkey,
    skipSpace_cons _ _ (show isSpace ':' = false by decide), hval,
    skipSpace_cons _ _ (show isSpace ',' = false by decide)]

theorem parseMembers_last (fuel : Nat) (rest rawKey value more : List Char) (v : JsonValue)
    (hkey : scanString rest = some (rawKey, ':' :: value))
    (hval : parseValue fuel value = some (v, '}' :: more)) :
    parseMembers (fuel + 1) ('"' :: rest) = some ([(unquote rawKey, v)], more) := by
  rw [parseMembers.eq_def]
  simp [skipSpace_cons _ _ (show isSpace '"' = false by decide), hkey,
    skipSpace_cons _ _ (show isSpace ':' = false by decide), hval,
    skipSpace_cons _ _ (show isSpace '}' = false by decide)]

theorem parseValue_encodeString (fuel : Nat) (s : String) (rest : List Char) :
    parseValue (fuel + 1) (encodeString s ++ rest) = some (JsonValue.string s.data, rest) := by
  rw [parseValue.eq_def]
  simp [encodeString, skipSpace_cons _ _ (show isSpace '"' = false by decide),
    scanString_encode, unquote_encode]

theorem parseValue_formatInt (fuel : Nat) (n : Int) (c : Char) (rest : List Char)
    (hc : c = ',' ∨ c = '}') :
    parseValue (fuel + 1) (strconvFormatInt n ++ c :: rest)
      = some (JsonValue.number (strconvFormatInt n), c :: rest) := by
  obtain ⟨hscan, d, tl, hfmt, hd⟩ := scanNumber_formatInt n c rest hc
  have hsp : isSpace d = false := by
    rcases hd with rfl | hd
    · decide
    · simp only [isDigit, Bool.and_eq_true, decide_eq_true_eq] at hd
      simp only [isSpace, Bool.or_eq_false_iff, decide_eq_false_iff_not]
      refine ⟨⟨⟨?_, ?_⟩, ?_⟩, ?_⟩ <;> (rintro rfl; simp at hd)
  have h1 : d ≠ '{' := by
    rcases hd with rfl | hd
    · decide
    · rintro rfl
      exact absurd hd (by decide)
  have h2 : d ≠ '[' := by
    rcases hd with rfl | hd
    · decide
    · rintro rfl
      exact absurd hd (by decide)
  have h3 : d ≠ '"' := by
    rcases hd with rfl | hd
    · decide
    · rintro rfl
      exact absurd hd (by decide)
  have h4 : (decide (d = '-') || isDigit d) = true := by
    rcases hd with rfl | hd
    · decide
    · simp [hd]
  rw [hfmt] at hscan ⊢
  rw [parseValue.eq_def]
  simp only [List.cons_append, skipSpace_cons _ _ hsp, h1, h2, h3, h4, if_false, if_true]
  rw [← List.cons_append, hscan]
  rfl

theorem parseValue_true (fuel : Nat) (rest : List Char) :
    parseValue (fuel + 1) ('t' :: 'r' :: 'u' :: 'e' :: rest) = some (JsonValue.bool true, rest) := by
  rw [parseValue.eq_def]
  simp [skipSpace_cons _ _ (show isSpace 't' = false by decide), scanLiteral,
    show isDigit 't' = false by decide]

theorem parseValue_false (fuel : Nat) (rest : List Char) :
    parseValue (fuel + 1) ('f' :: 'a' :: 'l' :: 's' :: 'e' :: rest)
      = some (JsonValue.bool false, rest) := by
  rw [parseValue.eq_def]
  simp [skipSpace_cons _ _ (show isSpace 'f' = false by decide), scanLiteral,
    show isDigit 'f' = false by decide]

/-- The key of a member as the encoder writes it, a field tag between quotes,
is scanned back as that tag. -/
theorem scanString_tag (tag : List Char) (rest : List Char)
    (h : tag.flatMap encodeChar = tag) :
    scanString (tag ++ '"' :: rest) = some (tag, rest) ∧ unquote tag = tag := by
  constructor
  · have := scanString_encode tag rest
    rwa [h] at this
  · have := unquote_encode tag
    rwa [h] at this

theorem parseValue_marshalSplitPercentage (fuel : Nat) (p : SplitPercentage)
    (rest : List Char) :
    parseValue (fuel + 4) (marshalSplitPercentage p ++ rest) = some (splitTree p, rest) := by
  have hnew := scanString_tag "new".data
    (':' :: (strconvFormatInt p.New ++ ',' :: '"' :: ("current".data ++ '"' :: ':' ::
      (strconvFormatInt p.Current ++ '}' :: rest)))) (by decide)
  have hcur := scanString_tag "current".data
    (':' :: (strconvFormatInt p.Current ++ '}' :: rest)) (by decide)
  have e : marshalSplitPercentage p ++ rest
      = '{' :: '"' :: ("new".data ++ '"' :: ':' :: (strconvFormatInt p.New ++ ',' :: '"' ::
          ("current".data ++ '"' :: ':' :: (strconvFormatInt p.Current ++ '}' :: rest)))) := by
    simp [marshalSplitPercentage, List.append_assoc]
  rw [e, parseValue_object,
    parseMembers_more (fuel + 2) _ _ _ _ _ hnew.1 (parseValue_formatInt (fuel + 1) _ _ _ (Or.inl rfl)),
    parseMembers_last (fuel + 1) _ _ _ _ _ hcur.1 (parseValue_formatInt fuel _ _ _ (Or.inr rfl)),
    hnew.2, hcur.2]
  rfl

theorem parseValue_bool (fuel : Nat) (b : Bool) (rest : List Char) :
    parseValue (fuel + 1) ((if b then "true".data else "false".data) ++ rest)
      = some (JsonValue.bool b, rest) := by
  cases b
  · exact parseValue_false fuel rest
  · exact parseValue_true fuel rest

theorem parseValue_marshalFeatureFlag (fuel : Nat) (f : FeatureFlag) (rest : List Char) :
    parseValue (fuel + 8) (marshalFeatureFlag f ++ rest) = some (flagTree f, rest) := by
  obtain ⟨m, b, o⟩ := f
  cases o with
  | none =>
    have hmarket := scanString_tag "market".data
      (':' :: (encodeString m ++ ',' :: '"' :: ("newFeatureActive".data ++ '"' :: ':' ::
        ((if b then "true".data else "false".data) ++ '}' :: rest)))) (by decide)
    have hactive := scanString_tag "newFeatureActive".data
      (':' :: ((if b then "true".data else "false".data) ++ '}' :: rest)) (by decide)
    have e : marshalFeatureFlag ⟨m, b, none⟩ ++ rest
        = '{' :: '"' :: ("market".data ++ '"' :: ':' :: (encodeString m ++ ',' :: '"' ::
            ("newFeatureActive".data ++ '"' :: ':' ::
              ((if b then "true".data else "false".data) ++ '}' :: rest)))) := by
      simp [marshalFeatureFlag, List.append_assoc]
    rw [e, parseValue_object,
      parseMembers_more (fuel + 6) _ _ _ _ _ hmarket.1 (parseValue_encodeString (fuel + 5) _ _),
      parseMembers_last (fuel + 5) _ _ _ _ _ hactive.1 (parseValue_bool (fuel + 4) _ _),
      hmarket.2, hactive.2]
    rfl
  | some p =>
    have hmarket := scanString_tag "market".data
      (':' :: (encodeString m ++ ',' :: '"' :: ("newFeatureActive".data ++ '"' :: ':' ::
        ((if b then "true".data else "false".data) ++ ',' :: '"' ::
          ("abSplitPercentage".data ++ '"' :: ':' :: (marshalSplitPercentage p ++ '}' :: rest))))))
      (by decide)
    have hactive := scanString_tag "newFeatureActive".data
      (':' :: ((if b then "true".data else "false".data) ++ ',' :: '"' ::
          ("abSplitPercentage".data ++ '"' :: ':' :: (marshalSplitPercentage p ++ '}' :: rest))))
      (by decide)
    have hsplit := scanString_tag "abSplitPercentage".data
      (':' :: (marshalSplitPercentage p ++ '}' :: rest)) (by decide)
    have e : marshalFeatureFlag ⟨m, b, some p⟩ ++ rest
        = '{' :: '"' :: ("market".data ++ '"' :: ':' :: (encodeString m ++ ',' :: '"' ::
            ("newFeatureActive".data ++ '"' :: ':' ::
              ((if b then "true".data else "false".data) ++ ',' :: '"' ::
                ("abSplitPercentage".data ++ '"' :: ':' ::
                  (marshalSplitPercentage p ++ '}' :: rest)))))) := by
      simp [marshalFeatureFlag, List.append_assoc]
    rw [e, parseValue_object,
      parseMembers_more (fuel + 6) _ _ _ _ _ hmarket.1 (parseValue_encodeString (fuel + 5) _ _),
      parseMembers_more (fuel + 5) _ _ _ _ _ hactive.1 (parseValue_bool (fuel + 4) _ _),
      parseMembers_last (fuel + 4) _ _ _ _ _ hsplit.1
        (parseValue_marshalSplitPercentage fuel _ _),
      hmarket.2, hactive.2, hsplit.2]
    rfl

theorem decodeSplitPercentage_splitTree (p : SplitPercentage) (cur : SplitPercentage)
    (h1 : intInRange p.New) (h2 : intInRange p.Current) :
    decodeSplitPercentage (splitTree p) cur none = (p, none) := by
  have f1 : findField ["new", "current"] "new".data = some 0 := by decide
  have f2 : findField ["new", "current"] "current".data = some 1 := by decide
  simp [decodeSplitPercentage, splitTree, decodeSplitPercentageField, f1, f2, decodeInt,
    strconvParseInt_formatInt _ h1, strconvParseInt_formatInt _ h2]

theorem decodeFeatureFlag_flagTree (f : FeatureFlag)
    (h : ∀ p, f.AbSplitPercentage = some p → intInRange p.New ∧ intInRange p.Current) :
    decodeFeatureFlag (flagTree f) ⟨"", false, none⟩ none = (f, none) := by
  have f1 : findField ["market", "newFeatureActive", "abSplitPercentage"] "market".data
      = some 0 := by decide
  have f2 : findField ["market", "newFeatureActive", "abSplitPercentage"]
      "newFeatureActive".data = some 1 := by decide
  have f3 : findField ["market", "newFeatureActive", "abSplitPercentage"]
      "abSplitPercentage".data = some 2 := by decide
  obtain ⟨m, b, o⟩ := f
  cases o with
  | none =>
    simp [decodeFeatureFlag, flagTree, decodeFeatureFlagField, f1, f2, decodeString, decodeBool]
  | some p =>
    obtain ⟨h1, h2⟩ := h p rfl
    simp [decodeFeatureFlag, flagTree, decodeFeatureFlagField, f1, f2, f3, decodeString,
      decodeBool, decodeSplitPercentagePtr, splitTree]
    have hs := decodeSplitPercentage_splitTree p ⟨0, 0⟩ h1 h2
    exact ⟨congrArg Prod.fst hs, congrArg Prod.snd hs⟩

theorem marshalFeatureFlag_length (f : FeatureFlag) : 7 ≤ (marshalFeatureFlag f).length := by
  simp [marshalFeatureFlag]

/-- C10: for every flag (whose integers are values of Go's `int`), decoding
the JSON encoding of the flag into a fresh `FeatureFlag` yields the flag again
without an error. Read as JSON, the encoding is the object with the members
`market` and `newFeatureActive` and, exactly when the flag has a split
percentage, a third member `abSplitPercentage` holding the object of its `new`
and `current` integers; without one the encoding has no `abSplitPercentage` key
(and no `null`). -/
theorem FeatureFlag_json_roundtrip (f : FeatureFlag)
    (hrange : ∀ p, f.AbSplitPercentage = some p → intInRange p.New ∧ intInRange p.Current) :
    jsonUnmarshalFeatureFlag (jsonMarshal f).1 ⟨"", false, none⟩ = (f, none) ∧
    (jsonMarshal f).2 = none ∧
    parseValue ((jsonMarshal f).1.length + 1) (jsonMarshal f).1 =
      some (JsonValue.object
        ([("market".data, JsonValue.string f.Market.data),
          ("newFeatureActive".data, JsonValue.bool f.NewFeatureActive)]
          ++ (match f.AbSplitPercentage with
              | none => []
              | some p => [("abSplitPercentage".data,
                  JsonValue.object [("new".data, JsonValue.number (strconvFormatInt p.New)),
                    ("current".data, JsonValue.number (strconvFormatInt p.Current))])])), []) := by
  have hlen := marshalFeatureFlag_length f
  obtain ⟨n, hn⟩ : ∃ n, (marshalFeatureFlag f).length + 1 = n + 8 :=
    ⟨(marshalFeatureFlag f).length - 7, by omega⟩
  have hparse : parseValue ((marshalFeatureFlag f).length + 1) (marshalFeatureFlag f)
      = some (flagTree f, []) := by
    have := parseValue_marshalFeatureFlag n f []
    rw [List.append_nil] at this
    rw [hn, this]
  refine ⟨?_, rfl, hparse⟩
  simp only [jsonUnmarshalFeatureFlag, jsonMarshal, hparse, skipSpace]
  exact decodeFeatureFlag_flagTree f hrange

/-- Witness of `FeatureFlag_json_roundtrip`: the US flag with a 30/70 split. -/
theorem FeatureFlag_json_roundtrip_witness :
    jsonUnmarshalFeatureFlag (jsonMarshal ⟨"US", true, some ⟨30, 70⟩⟩).1 ⟨"", false, none⟩
      = (⟨"US", true, some ⟨30, 70⟩⟩, none) ∧
    (jsonMarshal ⟨"US", true, some ⟨30, 70⟩⟩).2 = none ∧
    parseValue ((jsonMarshal ⟨"US", true, some ⟨30, 70⟩⟩).1.length + 1)
        (jsonMarshal ⟨"US", true, some ⟨30, 70⟩⟩).1 =
      some (JsonValue.object
        [("market".data, JsonValue.string "US".data),
          ("newFeatureActive".data, JsonValue.bool true),
          ("abSplitPercentage".data,
            JsonValue.object [("new".data, JsonValue.number "30".data),
              ("current".data, JsonValue.number "70".data)])], []) :=
  FeatureFlag_json_roundtrip ⟨"US", true, some ⟨30, 70⟩⟩
    (fun p hp => by
      cases hp
      exact ⟨by decide, by decide⟩)

/-! ## The bound on nesting in the scanner is immaterial -/

theorem skipSpace_length (l : List Char) : (skipSpace l).length ≤ l.length := by
  induction l with
  | nil => simp [skipSpace]
  | cons c l ih =>
    simp only [skipSpace]
    split
    · simp only [List.length_cons]; omega
    · exact Nat.le_refl _

theorem skipSpace_eq_cons_length {l : List Char} {c : Char} {rest : List Char}
    (h : skipSpace l = c :: rest) : rest.length < l.length := by
  have := skipSpace_length l
  rw [h] at this
  simp only [List.length_cons] at this
  omega

theorem scanString_length (l : List Char) : ∀ (raw after : List Char),
    scanString l = some (raw, after) → after.length < l.length := by
  induction l using scanString.induct with
  | case1 => intro raw after h; simp [scanString] at h
  | case2 rest =>
    intro raw after h
    rw [scanString_quote] at h
    simp only [Option.some.injEq, Prod.mk.injEq] at h
    rw [← h.2]
    simp
  | case3 => intro raw after h; simp [scanString] at h
  | case4 h1 h2 h3 h4 rest3 hh _ ih =>
    intro raw after h
    simp only [Bool.and_eq_true] at hh
    rw [scanString_u _ _ _ _ _ ⟨hh.1.1.1, hh.1.1.2, hh.1.2, hh.2⟩] at h
    cases hr : scanString rest3 with
    | none => simp [hr] at h
    | some r =>
      obtain ⟨r1, r2⟩ := r
      simp only [hr, Option.map_some', Option.some.injEq, Prod.mk.injEq] at h
      have := ih r1 r2 hr
      rw [← h.2]
      simp only [List.length_cons]
      omega
  | case5 h1 h2 h3 h4 rest3 hh _ =>
    intro raw after h
    rw [scanString.eq_def] at h
    simp [hh] at h
  | case6 rest hr _ =>
    intro raw after h
    rw [scanString.eq_def] at h
    simp at h
  | case7 c rest hu he _ ih =>
    intro raw after h
    have he2 : c = 'b' ∨ c = 'f' ∨ c = 'n' ∨ c = 'r' ∨ c = 't' ∨ c = '\\' ∨ c = '/' ∨ c = '"' := by
      simp only [Bool.or_eq_true, decide_eq_true_eq] at he
      tauto
    rw [scanString_escape c rest hu he2] at h
    cases hr : scanString rest with
    | none => simp [hr] at h
    | some r =>
      obtain ⟨r1, r2⟩ := r
      simp only [hr, Option.map_some', Option.some.injEq, Prod.mk.injEq] at h
      have := ih r1 r2 hr
      rw [← h.2]
      simp only [List.length_cons]
      omega
  | case8 c rest hu he _ =>
    intro raw after h
    rw [scanString.eq_def] at h
    simp [hu] at h
    simp only [Bool.or_eq_true, decide_eq_true_eq] at he
    exfalso
    apply he
    tauto
  | case9 c rest h1 h2 h3 =>
    intro raw after h
    rw [scanString.eq_def] at h
    simp [h1, h2, h3] at h
  | case10 c rest h1 h2 h3 ih =>
    intro raw after h
    rw [scanString_plain c rest h1 h2 (by omega)] at h
    cases hr : scanString rest with
    | none => simp [hr] at h
    | some r =>
      obtain ⟨r1, r2⟩ := r
      simp only [hr, Option.map_some', Option.some.injEq, Prod.mk.injEq] at h
      have := ih r1 r2 hr
      rw [← h.2]
      simp only [List.length_cons]
      omega

theorem scanDigits_length (l : List Char) : (scanDigits l).2.length ≤ l.length := by
  induction l with
  | nil => simp [scanDigits]
  | cons c l ih =>
    simp only [scanDigits]
    split
    · simp only [List.length_cons]; omega
    · exact Nat.le_refl _

theorem scanExponent_length (l lit after : List Char)
    (h : scanExponent l = some (lit, after)) : after.length ≤ l.length := by
  unfold scanExponent at h
  split at h
  · simp at h
  · rename_i s r
    split at h
    · split at h
      · simp at h
      · rename_i d tl
        split at h
        · simp only [Option.some.injEq, Prod.mk.injEq] at h
          rw [← h.2]
          have := scanDigits_length (d :: tl)
          simp only [List.length_cons] at this ⊢
          omega
        · simp at h
    · split at h
      · simp only [Option.some.injEq, Prod.mk.injEq] at h
        rw [← h.2]
        exact scanDigits_length _
      · simp at h

theorem scanFraction_length (l lit after : List Char)
    (h : scanFraction l = some (lit, after)) : after.length ≤ l.length := by
  unfold scanFraction at h
  split at h
  · simp only [Option.some.injEq, Prod.mk.injEq] at h
    rw [← h.2]
  · rename_i c r
    split at h
    · split at h
      · simp at h
      · rename_i d tl
        split at h
        · have hd := scanDigits_length (d :: tl)
          split at h
          · simp only [Option.some.injEq, Prod.mk.injEq] at h
            rw [← h.2]
            simp
          · rename_i e r2 he
            rw [he] at hd
            simp only [List.length_cons] at hd
            split at h
            · cases hx : scanExponent r2 with
              | none => simp [hx] at h
              | some x =>
                obtain ⟨x1, x2⟩ := x
                simp only [hx, Option.map_some', Option.some.injEq, Prod.mk.injEq] at h
                have := scanExponent_length r2 x1 x2 hx
                rw [← h.2]
                simp only [List.length_cons]
                omega
            · simp only [Option.some.injEq, Prod.mk.injEq] at h
              rw [← h.2]
              simp only [List.length_cons]
              omega
        · simp at h
    · split at h
      · cases hx : scanExponent r with
        | none => simp [hx] at h
        | some x =>
          obtain ⟨x1, x2⟩ := x
          simp only [hx, Option.map_some', Option.some.injEq, Prod.mk.injEq] at h
          have := scanExponent_length r x1 x2 hx
          rw [← h.2]
          simp only [List.length_cons]
          omega
      · simp only [Option.some.injEq, Prod.mk.injEq] at h
        rw [← h.2]

theorem scanInteger_length (l lit after : List Char)
    (h : scanInteger l = some (lit, after)) : after.length < l.length := by
  unfold scanInteger at h
  split at h
  · simp at h
  · rename_i d rest
    split at h
    · cases hx : scanFraction rest with
      | none => simp [hx] at h
      | some x =>
        obtain ⟨x1, x2⟩ := x
        simp only [hx, Option.map_some', Option.some.injEq, Prod.mk.injEq] at h
        have := scanFraction_length rest x1 x2 hx
        rw [← h.2]
        simp only [List.length_cons]
        omega
    · split at h
      · cases hx : scanFraction (scanDigits rest).2 with
        | none => simp [hx] at h
        | some x =>
          obtain ⟨x1, x2⟩ := x
          simp only [hx, Option.map_some', Option.some.injEq, Prod.mk.injEq] at h
          have := scanFraction_length _ x1 x2 hx
          have := scanDigits_length rest
          rw [← h.2]
          simp only [List.length_cons]
          omega
      · simp at h

theorem scanNumber_length (l lit after : List Char)
    (h : scanNumber l = some (lit, after)) : after.length < l.length := by
  unfold scanNumber at h
  split at h
  · simp at h
  · rename_i c rest
    split at h
    · cases hx : scanInteger rest with
      | none => simp [hx] at h
      | some x =>
        obtain ⟨x1, x2⟩ := x
        simp only [hx, Option.map_some', Option.some.injEq, Prod.mk.injEq] at h
        have := scanInteger_length rest x1 x2 hx
        rw [← h.2]
        simp only [List.length_cons]
        omega
    · exact scanInteger_length _ _ _ h

theorem scanLiteral_length (word l after : List Char)
    (h : scanLiteral word l = some after) : after.length ≤ l.length := by
  unfold scanLiteral at h
  split at h
  · simp only [Option.some.injEq] at h
    rw [← h]
    simp
  · simp at h

/-- Every parse consumes input: what is left after a value, after the members
of an object or after the elements of an array is shorter than the input. -/
theorem parse_length (fuel : Nat) :
    (∀ input v rest, parseValue fuel input = some (v, rest) → rest.length < input.length) ∧
    (∀ input ms rest, parseMembers fuel input = some (ms, rest) → rest.length < input.length) ∧
    (∀ input es rest, parseElements fuel input = some (es, rest) →
      rest.length < input.length) := by
  induction fuel with
  | zero =>
    refine ⟨?_, ?_, ?_⟩ <;> intro input v rest h
    · rw [parseValue.eq_1] at h; cases h
    · rw [parseMembers.eq_1] at h; cases h
    · rw [parseElements.eq_1] at h; cases h
  | succ fuel ih =>
    obtain ⟨ihv, ihm, ihe⟩ := ih
    refine ⟨?_, ?_, ?_⟩
    · intro input v rest h
      rw [parseValue.eq_2] at h
      split at h
      · cases h
      · rename_i c rest0 heq
        have hlen := skipSpace_eq_cons_length heq
        split at h
        · split at h
          · cases h
          · rename_i d rest2 heq2
            have hlen2 := skipSpace_eq_cons_length heq2
            split at h
            · simp only [Option.some.injEq, Prod.mk.injEq] at h
              rw [← h.2]; omega
            · simp only [Option.map_eq_some', Prod.mk.injEq] at h
              obtain ⟨⟨x1, x2⟩, hx, _, rfl⟩ := h
              have := ihm _ _ _ hx
              simp only [List.length_cons] at this
              dsimp only
              omega
        · split at h
          · split at h
            · cases h
            · rename_i d rest2 heq2
              have hlen2 := skipSpace_eq_cons_length heq2
              split at h
              · simp only [Option.some.injEq, Prod.mk.injEq] at h
                rw [← h.2]; omega
              · simp only [Option.map_eq_some', Prod.mk.injEq] at h
                obtain ⟨⟨x1, x2⟩, hx, _, rfl⟩ := h
                have := ihe _ _ _ hx
                simp only [List.length_cons] at this
                dsimp only
                omega
          · split at h
            · simp only [Option.map_eq_some', Prod.mk.injEq] at h
              obtain ⟨⟨x1, x2⟩, hx, _, rfl⟩ := h
              have := scanString_length _ _ _ hx
              dsimp only
              omega
            · split at h
              · simp only [Option.map_eq_some', Prod.mk.injEq] at h
                obtain ⟨⟨x1, x2⟩, hx, _, rfl⟩ := h
                have := scanNumber_length _ _ _ hx
                simp only [List.length_cons] at this
                dsimp only
                omega
              · split at h
                · simp only [Option.map_eq_some', Prod.mk.injEq] at h
                  obtain ⟨x, hx, _, rfl⟩ := h
                  have := scanLiteral_length _ _ _ hx
                  omega
                · split at h
                  · simp only [Option.map_eq_some', Prod.mk.injEq] at h
                    obtain ⟨x, hx, _, rfl⟩ := h
                    have := scanLiteral_length _ _ _ hx
                    omega
                  · split at h
                    · simp only [Option.map_eq_some', Prod.mk.injEq] at h
                      obtain ⟨x, hx, _, rfl⟩ := h
                      have := scanLiteral_length _ _ _ hx
                      omega
                    · cases h
    · intro input ms rest h
      rw [parseMembers.eq_2] at h
      split at h
      · cases h
      · rename_i q rest0 heq
        have hlen := skipSpace_eq_cons_length heq
        split at h
        · split at h
          · cases h
          · rename_i rawKey afterKey hkey
            have hlen1 := scanString_length _ _ _ hkey
            split at h
            · cases h
            · rename_i colon afterColon heq2
              have hlen2 := skipSpace_eq_cons_length heq2
              split at h
              · split at h
                · cases h
                · rename_i v afterValue hval
                  have hlen3 := ihv _ _ _ hval
                  split at h
                  · cases h
                  · rename_i sep afterSep heq3
                    have hlen4 := skipSpace_eq_cons_length heq3
                    split at h
                    · simp only [Option.map_eq_some', Prod.mk.injEq] at h
                      obtain ⟨⟨x1, x2⟩, hx, _, rfl⟩ := h
                      have := ihm _ _ _ hx
                      dsimp only
                      omega
                    · split at h
                      · simp only [Option.some.injEq, Prod.mk.injEq] at h
                        rw [← h.2]; omega
                      · cases h
              · cases h
        · cases h
    · intro input es rest h
      rw [parseElements.eq_2] at h
      split at h
      · cases h
      · rename_i v afterValue hval
        have hlen3 := ihv _ _ _ hval
        split at h
        · cases h
        · rename_i sep afterSep heq3
          have hlen4 := skipSpace_eq_cons_length heq3
          split at h
          · simp only [Option.map_eq_some', Prod.mk.injEq] at h
            obtain ⟨⟨x1, x2⟩, hx, _, rfl⟩ := h
            have := ihe _ _ _ hx
            dsimp only
            omega
          · split at h
            · simp only [Option.some.injEq, Prod.mk.injEq] at h
              rw [← h.2]; omega
            · cases h

/-- A parse that succeeds with some bound on the nesting succeeds, with the same
result, with every bound that is at least the number of characters it
consumed. -/
theorem parse_fuel (fuel : Nat) :
    (∀ input v rest, parseValue fuel input = some (v, rest) →
      ∀ g, input.length - rest.length ≤ g → parseValue g input = some (v, rest)) ∧
    (∀ input ms rest, parseMembers fuel input = some (ms, rest) →
      ∀ g, input.length - rest.length ≤ g → parseMembers g input = some (ms, rest)) ∧
    (∀ input es rest, parseElements fuel input = some (es, rest) →
      ∀ g, input.length - rest.length ≤ g → parseElements g input = some (es, rest)) := by
  induction fuel with
  | zero =>
    refine ⟨?_, ?_, ?_⟩ <;> intro input v rest h
    · rw [parseValue.eq_1] at h; cases h
    · rw [parseMembers.eq_1] at h; cases h
    · rw [parseElements.eq_1] at h; cases h
  | succ fuel ih =>
    obtain ⟨ihv, ihm, ihe⟩ := ih
    refine ⟨?_, ?_, ?_⟩
    · intro input v rest h g hg
      have hcons := (parse_length (fuel + 1)).1 _ _ _ h
      obtain ⟨g, rfl⟩ : ∃ k, g = k + 1 := ⟨g - 1, by omega⟩
      rw [parseValue.eq_2] at h ⊢
      split at h
      · cases h
      · rename_i c rest0 heq
        have hlen := skipSpace_eq_cons_length heq
        split at h
        · rename_i hc
          rw [if_pos hc]
          split at h
          · cases h
          · rename_i d rest2 heq2
            have hlen2 := skipSpace_eq_cons_length heq2
            split at h
            · rename_i hd
              rw [if_pos hd]
              exact h
            · rename_i hd
              rw [if_neg hd]
              simp only [Option.map_eq_some', Prod.mk.injEq] at h
              obtain ⟨⟨x1, x2⟩, hx, rfl, rfl⟩ := h
              rw [ihm _ _ _ hx g (by simp only [List.length_cons]; dsimp only at hg; omega)]
              rfl
        · rename_i hc
          rw [if_neg hc]
          split at h
          · rename_i hc2
            rw [if_pos hc2]
            split at h
            · cases h
            · rename_i d rest2 heq2
              have hlen2 := skipSpace_eq_cons_length heq2
              split at h
              · rename_i hd
                rw [if_pos hd]
                exact h
              · rename_i hd
                rw [if_neg hd]
                simp only [Option.map_eq_some', Prod.mk.injEq] at h
                obtain ⟨⟨x1, x2⟩, hx, rfl, rfl⟩ := h
                rw [ihe _ _ _ hx g (by simp only [List.length_cons]; dsimp only at hg; omega)]
                rfl
          · rename_i hc2
            rw [if_neg hc2]
            exact h
    · intro input ms rest h g hg
      have hcons := (parse_length (fuel + 1)).2.1 _ _ _ h
      obtain ⟨g, rfl⟩ : ∃ k, g = k + 1 := ⟨g - 1, by omega⟩
      rw [parseMembers.eq_2] at h ⊢
      split at h
      · cases h
      · rename_i q rest0 heq
        have hlen := skipSpace_eq_cons_length heq
        split at h
        · rename_i hq
          rw [if_pos hq]
          split at h
          · cases h
          · rename_i rawKey afterKey hkey
            have hlen1 := scanString_length _ _ _ hkey
            split at h
            · cases h
            · rename_i colon afterColon heq2
              have hlen2 := skipSpace_eq_cons_length heq2
              split at h
              · rename_i hcolon
                rw [if_pos hcolon]
                split at h
                · cases h
                · rename_i v afterValue hval
                  have hlen3 := (parse_length fuel).1 _ _ _ hval
                  split at h
                  · cases h
                  · rename_i sep afterSep heq3
                    have hlen4 := skipSpace_eq_cons_length heq3
                    have hrest : rest.length ≤ afterSep.length := by
                      split at h
                      · simp only [Option.map_eq_some', Prod.mk.injEq] at h
                        obtain ⟨⟨x1, x2⟩, hx, _, rfl⟩ := h
                        have := (parse_length fuel).2.1 _ _ _ hx
                        dsimp only
                        omega
                      · split at h
                        · simp only [Option.some.injEq, Prod.mk.injEq] at h
                          rw [← h.2]
                        · cases h
                    rw [ihv _ _ _ hval g (by omega)]
                    simp only []
                    rw [heq3]
                    simp only []
                    split at h
                    · rename_i hsep
                      rw [if_pos hsep]
                      simp only [Option.map_eq_some', Prod.mk.injEq] at h
                      obtain ⟨⟨x1, x2⟩, hx, rfl, rfl⟩ := h
                      rw [ihm _ _ _ hx g (by dsimp only at hg hrest ⊢; omega)]
                      rfl
                    · rename_i hsep
                      rw [if_neg hsep]
                      exact h
              · cases h
        · cases h
    · intro input es rest h g hg
      have hcons := (parse_length (fuel + 1)).2.2 _ _ _ h
      obtain ⟨g, rfl⟩ : ∃ k, g = k + 1 := ⟨g - 1, by omega⟩
      rw [parseElements.eq_2] at h ⊢
      split at h
      · cases h
      · rename_i v afterValue hval
        have hlen3 := (parse_length fuel).1 _ _ _ hval
        split at h
        · cases h
        · rename_i sep afterSep heq3
          have hlen4 := skipSpace_eq_cons_length heq3
          have hrest : rest.length ≤ afterSep.length := by
            split at h
            · simp only [Option.map_eq_some', Prod.mk.injEq] at h
              obtain ⟨⟨x1, x2⟩, hx, _, rfl⟩ := h
              have := (parse_length fuel).2.2 _ _ _ hx
              dsimp only
              omega
            · split at h
              · simp only [Option.some.injEq, Prod.mk.injEq] at h
                rw [← h.2]
              · cases h
          rw [ihv _ _ _ hval g (by omega)]
          simp only []
          rw [heq3]
          simp only []
          split at h
          · rename_i hsep
            rw [if_pos hsep]
            simp only [Option.map_eq_some', Prod.mk.injEq] at h
            obtain ⟨⟨x1, x2⟩, hx, rfl, rfl⟩ := h
            rw [ihe _ _ _ hx g (by dsimp only at hg hrest ⊢; omega)]
            rfl
          · rename_i hsep
            rw [if_neg hsep]
            exact h

/-- With any bound above the length of the input the scanner gives the result
it gives with the bound the decoders use: it never fails for lack of fuel. -/
theorem parseValue_fuel_adequate (input : List Char) (fuel : Nat)
    (h : input.length < fuel) :
    parseValue fuel input = parseValue (input.length + 1) input := by
  cases h1 : parseValue (input.length + 1) input with
  | some r =>
    obtain ⟨v, rest⟩ := r
    exact (parse_fuel _).1 _ _ _ h1 fuel (by omega)
  | none =>
    cases h2 : parseValue fuel input with
    | none => rfl
    | some r =>
      obtain ⟨v, rest⟩ := r
      have := (parse_fuel fuel).1 _ _ _ h2 (input.length + 1) (by omega)
      rw [h1] at this
      cases this

end FeatureToggle
